import Mathlib

/-!
Verification development for the bandit-dl album downloader.

The Go program (src/main.go) is shallowly embedded below:

* pure helpers (`cleanString`, `findElementsWithDataKey`, `getDataValue`,
  URL/path formatting) become Lean functions translated line by line;
* the JSON layer (`encoding/json` plus the custom
  `timestamp.UnmarshalJSON` hook) is modelled by an executable JSON text
  parser, a raw serializer mirroring the raw bytes Go hands to
  `UnmarshalJSON`, and a field-by-field struct decoder following Go's
  `json.Unmarshal` rules;
* the effectful orchestrators (`downloadAlbum`, `downloadAlbums`, `main`)
  become pure functions over a `World` oracle that answers every external
  call (HTTP, filesystem, tag library); each run yields the ordered trace
  of side effects together with an outcome (success, Go error, or panic).

Strings are modelled at the level of unicode code points (`Char`); the
byte/rune distinction only matters at ASCII delimiters for the claims
settled here, which is noted where it arises.
-/

namespace Bandit

/-- Go error values as built by the program: `errors.New`/fixed messages
(`msg`), `fmt.Errorf("...: %w", err)` wrapping (`wrap`), and the
`fmt.Errorf("%w\n%s", err, err2)` chaining used by `downloadAlbums`.
The chain's base is the accumulated error so far; when that accumulator
is still `nil` (as on the very first failure) Go formats the nil verb
placeholder, modelled by the distinguished `nilErr` value. -/
inductive GoErr where
  | msg (s : String)
  | wrap (s : String) (e : GoErr)
  | nilErr
  | chain (base : GoErr) (next : GoErr)
deriving DecidableEq

/-- The base handed to `%w` by `downloadAlbums`: the accumulated error if
any, else Go's `nil` (modelled as `GoErr.nilErr`). -/
def baseOf (e : Option GoErr) : GoErr := e.getD .nilErr

/-- Result of a fallible Go computation that may also panic
(the unchecked slice in `timestamp.UnmarshalJSON` can panic). -/
inductive GoResult (α : Type) where
  | ok (a : α)
  | error (e : GoErr)
  | panicked
deriving DecidableEq

/-- True exactly on the `error` constructor. -/
def GoResult.isErr {α : Type} : GoResult α → Bool
  | .error _ => true
  | _ => false

/-- Outcome of an orchestrator call: success, an error returned to the
caller, or a propagating panic. -/
inductive Outcome where
  | ok
  | fail (e : GoErr)
  | panicked
deriving DecidableEq

/-- The character substitution table `msStrings` from src/main.go,
mapping the eight filesystem-unsafe characters to unicode lookalikes. -/
def msStrings (c : Char) : Option Char :=
  if c = '<' then some '﹤'
  else if c = '>' then some '﹥'
  else if c = ':' then some 'ː'
  else if c = '/' then some '⁄'
  else if c = Char.ofNat 92 then some '∖'
  else if c = '|' then some '⼁'
  else if c = '?' then some '﹖'
  else if c = '*' then some '﹡'
  else none

/-- `cleanString` from src/main.go: iterate the input's code points
(Go `for _, r1 := range s`), appending the table image of each mapped
character and every other character unchanged. -/
def cleanString (s : List Char) : List Char :=
  s.foldl (fun out r1 => out ++ (match msStrings r1 with
    | some r => [r]
    | none => [r1])) []

/-- Per-character substitution applied by `cleanString`. -/
def msSubst (c : Char) : Char := (msStrings c).getD c

/-- `cleanString` lifted to Lean strings (Go strings iterated by rune). -/
def cleanStringS (s : String) : String := ⟨cleanString s.data⟩

theorem cleanString_cons (c : Char) (s : List Char) :
    cleanString (c :: s) = msSubst c :: cleanString s := by
  have h : ∀ (l : List Char) (acc : List Char),
      l.foldl (fun out r1 => out ++ (match msStrings r1 with
        | some r => [r]
        | none => [r1])) acc = acc ++ l.map msSubst := by
    intro l
    induction l with
    | nil => intro acc; simp
    | cons x xs ih =>
      intro acc
      simp only [List.foldl_cons, List.map_cons, ih]
      cases hx : msStrings x <;> simp [msSubst, hx]
  simp [cleanString, h]

theorem cleanString_eq_map (s : List Char) :
    cleanString s = s.map msSubst := by
  induction s with
  | nil => rfl
  | cons c s ih => rw [cleanString_cons, ih, List.map_cons]

theorem msStrings_image_unmapped (c r : Char) (h : msStrings c = some r) :
    msStrings r = none := by
  unfold msStrings at h
  split_ifs at h <;> (injection h with h; subst h; decide)

theorem msSubst_idem (c : Char) : msSubst (msSubst c) = msSubst c := by
  unfold msSubst
  cases h : msStrings c with
  | none => simp [h]
  | some r => simp [msStrings_image_unmapped c r h]

/-- A parsed timezone-aware instant, as far as this program observes it:
the program only ever reads the calendar fields (`Format("2006")` for the
year) of the `time.Time` produced by `time.Parse` with layout
`02 Jan 2006 15:04:05 GMT`, which carries the UTC zone.  `Local()`:
the local zone is modelled as UTC, which only affects the displayed year
string and none of the claims below. -/
structure Timestamp where
  year : Nat
  month : Nat
  day : Nat
  hour : Nat
  minute : Nat
  second : Nat
deriving DecidableEq

/-- The zero `time.Time` (year 1, January 1, midnight): value of the
`ReleaseDate` field when the JSON never sets it. -/
def zeroTimestamp : Timestamp := ⟨1, 1, 1, 0, 0, 0⟩

/-- Digit test, as Go's `isDigit`. -/
def isDig (c : Char) : Bool := '0' ≤ c && c ≤ '9'

def digVal (c : Char) : Nat := c.toNat - '0'.toNat

/-- Go `getnum` with `fixed = true`: exactly two leading digits. -/
def getnum2 : List Char → Option (Nat × List Char)
  | c1 :: c2 :: rest =>
    if isDig c1 && isDig c2 then some (digVal c1 * 10 + digVal c2, rest)
    else none
  | _ => none

/-- Go `getnum` with `fixed = false`: one digit, or two if the second
character is also a digit. -/
def getnum12 : List Char → Option (Nat × List Char)
  | c1 :: c2 :: rest =>
    if isDig c1 then
      if isDig c2 then some (digVal c1 * 10 + digVal c2, rest)
      else some (digVal c1, c2 :: rest)
    else none
  | [c1] => if isDig c1 then some (digVal c1, []) else none
  | [] => none

/-- Go `stdLongYear`: four characters, all digits (`atoi` of the slice). -/
def getYear4 : List Char → Option (Nat × List Char)
  | c1 :: c2 :: c3 :: c4 :: rest =>
    if isDig c1 && isDig c2 && isDig c3 && isDig c4 then
      some (((digVal c1 * 10 + digVal c2) * 10 + digVal c3) * 10 + digVal c4, rest)
    else none
  | _ => none

/-- Go's `match` helper: byte equality up to ASCII case folding. -/
def goCharMatch (a b : Char) : Bool :=
  a = b ||
    (let a' := Char.ofNat (a.toNat % 256 ||| 32)
     let b' := Char.ofNat (b.toNat % 256 ||| 32)
     a.toNat < 256 && b.toNat < 256 && a' = b' && 'a' ≤ a' && a' ≤ 'z')

def goStrMatch : List Char → List Char → Bool
  | [], [] => true
  | a :: as_, b :: bs => goCharMatch a b && goStrMatch as_ bs
  | _, _ => false

/-- Go's `shortMonthNames`. -/
def shortMonthNames : List (List Char) :=
  ["Jan", "Feb", "Mar", "Apr", "May", "Jun",
   "Jul", "Aug", "Sep", "Oct", "Nov", "Dec"].map String.data

/-- Go `lookup` over `shortMonthNames`: first case-insensitive prefix
match wins, yielding the 1-based month. -/
def lookupMonth (s : List Char) : Option (Nat × List Char) :=
  (List.range shortMonthNames.length).foldr
    (fun i acc =>
      let name := shortMonthNames.getD i []
      if goStrMatch (s.take name.length) name && name.length ≤ s.length then
        some (i + 1, s.drop name.length)
      else acc)
    none

/-- Leap-year rule used by Go's `daysIn`. -/
def isLeap (y : Nat) : Bool := y % 4 = 0 && (y % 100 ≠ 0 || y % 400 = 0)

/-- Days in a month, as Go's `daysIn`. -/
def daysIn (m y : Nat) : Nat :=
  if m = 2 then (if isLeap y then 29 else 28)
  else if m = 4 || m = 6 || m = 9 || m = 11 then 30
  else 31

def expectChar (c : Char) : List Char → Option (List Char)
  | x :: rest => if x = c then some rest else none
  | [] => none

def expectLit : List Char → List Char → Option (List Char)
  | [], s => some s
  | c :: cs, s => (expectChar c s).bind (expectLit cs)

/-- Go consumes fractional seconds from the value even though the layout
has no fractional-second chunk: a `.` or `,` followed by at least one
digit, all following digits consumed. -/
def consumeFrac (s : List Char) : List Char :=
  match s with
  | c1 :: c2 :: rest =>
    if (c1 = '.' || c1 = ',') && isDig c2 then (c2 :: rest).dropWhile isDig
    else s
  | _ => s

/-- Model of Go `time.Parse("02 Jan 2006 15:04:05 GMT", s)`: zero-padded
day, case-insensitively matched short month name, four-digit year,
1-or-2-digit hour, zero-padded minute and second, optional fractional
seconds, the literal ` GMT`, end of input, and the hour/minute/second/day
range checks Go performs.  `none` models a parse error. -/
def goTimeParse (s : List Char) : Option Timestamp :=
  match getnum2 s with
  | none => none
  | some (day, s) =>
    match expectChar ' ' s with
    | none => none
    | some s =>
      match lookupMonth s with
      | none => none
      | some (month, s) =>
        match expectChar ' ' s with
        | none => none
        | some s =>
          match getYear4 s with
          | none => none
          | some (year, s) =>
            match expectChar ' ' s with
            | none => none
            | some s =>
              match getnum12 s with
              | none => none
              | some (hour, s) =>
                if 24 ≤ hour then none
                else
                  match expectChar ':' s with
                  | none => none
                  | some s =>
                    match getnum2 s with
                    | none => none
                    | some (minute, s) =>
                      if 60 ≤ minute then none
                      else
                        match expectChar ':' s with
                        | none => none
                        | some s =>
                          match getnum2 s with
                          | none => none
                          | some (second, s) =>
                            if 60 ≤ second then none
                            else
                              let s := consumeFrac s
                              match expectLit (String.data " GMT") s with
                              | none => none
                              | some s =>
                                if s ≠ [] then none
                                else if day < 1 || daysIn month year < day then none
                                else some ⟨year, month, day, hour, minute, second⟩

/-- `timestamp.UnmarshalJSON` from src/main.go: the raw JSON value `b` is
stripped of its first and last byte unconditionally (`s[1:len(s)-1]`) and
the interior is handed to `time.Parse`.  When `b` is shorter than two
bytes the slice expression panics.  (Raw values reaching this hook from
valid JSON begin and end with single-byte characters, so byte and
code-point indexing agree here.) -/
def timestampUnmarshalJSON (b : List Char) : GoResult Timestamp :=
  if b.length < 2 then .panicked
  else
    match goTimeParse ((b.drop 1).dropLast) with
    | none => .error (.msg "parsing time: bad value for field")
    | some t => .ok t

def quoteC : Char := Char.ofNat 34

def bslashC : Char := Char.ofNat 92

def lbraceC : Char := Char.ofNat 123

def rbraceC : Char := Char.ofNat 125

def lbrackC : Char := Char.ofNat 91

def rbrackC : Char := Char.ofNat 93

/-- JSON values, as produced by scanning the input text.  String and
number literals keep the raw characters exactly as written (between the
quotes, for strings), because Go's `json.Unmarshal` hands the raw input
bytes of a value to a custom `UnmarshalJSON` hook. -/
inductive Json where
  | null
  | boolean (b : Bool)
  | num (raw : List Char)
  | str (raw : List Char)
  | arr (elems : List Json)
  | obj (members : List (String × Json))

def isHex (c : Char) : Bool :=
  isDig c || ('a' ≤ c && c ≤ 'f') || ('A' ≤ c && c ≤ 'F')

def hexVal (c : Char) : Nat :=
  if isDig c then digVal c
  else if 'a' ≤ c && c ≤ 'f' then c.toNat - 'a'.toNat + 10
  else if 'A' ≤ c && c ≤ 'F' then c.toNat - 'A'.toNat + 10
  else 0

def escMap (e : Char) : Char :=
  if e = 'b' then Char.ofNat 8
  else if e = 'f' then Char.ofNat 12
  else if e = 'n' then Char.ofNat 10
  else if e = 'r' then Char.ofNat 13
  else if e = 't' then Char.ofNat 9
  else e

/-- Decode the raw characters of a scanned string literal into the Go
string value (escape sequences already validated by the scanner).
Surrogate-pair recombination is not modelled; no claim below depends on
the decoded value of an escaped code point. -/
def unescape : List Char → List Char
  | [] => []
  | c :: rest =>
    if c ≠ bslashC then c :: unescape rest
    else
      match rest with
      | [] => []
      | e :: rest2 =>
        if e = 'u' then
          match rest2 with
          | h1 :: h2 :: h3 :: h4 :: rest3 =>
            Char.ofNat (((hexVal h1 * 16 + hexVal h2) * 16 + hexVal h3) * 16 + hexVal h4)
              :: unescape rest3
          | _ => []
        else escMap e :: unescape rest2

/-- Whitespace skipped by Go's JSON scanner. -/
def skipWs (s : List Char) : List Char :=
  s.dropWhile (fun c => c = ' ' || c = Char.ofNat 9 || c = Char.ofNat 10 || c = Char.ofNat 13)

/-- Scan a string literal after its opening quote: returns the raw
characters up to the closing quote and the remainder.  Rejects control
characters and invalid escapes, as Go's scanner does. -/
def scanStr (s : List Char) : Option (List Char × List Char) :=
  match s with
  | [] => none
  | c :: rest =>
    if c = quoteC then some ([], rest)
    else if c = bslashC then
      match rest with
      | [] => none
      | e :: rest2 =>
        if e = quoteC || e = bslashC || e = '/' || e = 'b' || e = 'f' || e = 'n' ||
            e = 'r' || e = 't' then
          match scanStr rest2 with
          | some (raw, r) => some (c :: e :: raw, r)
          | none => none
        else if e = 'u' then
          match rest2 with
          | h1 :: h2 :: h3 :: h4 :: rest3 =>
            if isHex h1 && isHex h2 && isHex h3 && isHex h4 then
              match scanStr rest3 with
              | some (raw, r) => some (c :: e :: h1 :: h2 :: h3 :: h4 :: raw, r)
              | none => none
            else none
          | _ => none
        else none
    else if c.toNat < 32 then none
    else
      match scanStr rest with
      | some (raw, r) => some (c :: raw, r)
      | none => none

/-- Scan a number literal per the JSON grammar, returning its raw
characters and the remainder. -/
def scanNum (s : List Char) : Option (List Char × List Char) :=
  let (sign, s1) := match s with
    | c :: rest => if c = '-' then ([c], rest) else ([], s)
    | [] => ([], s)
  match s1 with
  | [] => none
  | c :: rest =>
    if c = '0' then
      let (intPart, s2) := ([c], rest)
      scanNumTail sign intPart s2
    else if isDig c then
      let intPart := c :: rest.takeWhile isDig
      scanNumTail sign intPart (rest.dropWhile isDig)
    else none
where
  scanNumTail (sign intPart : List Char) (s2 : List Char) : Option (List Char × List Char) :=
    let (frac, s3) := match s2 with
      | c :: rest =>
        if c = '.' then
          let ds := rest.takeWhile isDig
          if ds = [] then ([], none) else (c :: ds, some (rest.dropWhile isDig))
        else ([], some s2)
      | [] => ([], some s2)
    match s3 with
    | none => none
    | some s3 =>
      let (ex, s4) := match s3 with
        | c :: rest =>
          if c = 'e' || c = 'E' then
            let (es, rest2) := match rest with
              | c2 :: r2 => if c2 = '+' || c2 = '-' then ([c2], r2) else ([], rest)
              | [] => ([], rest)
            let ds := rest2.takeWhile isDig
            if ds = [] then ([], none) else (c :: es ++ ds, some (rest2.dropWhile isDig))
          else ([], some s3)
        | [] => ([], some s3)
      match s4 with
      | none => none
      | some s4 => some (sign ++ intPart ++ frac ++ ex, s4)

mutual

/-- Fuel-driven JSON value parser (the fuel given at top level always
suffices for the inputs appearing here; running out yields a syntax
error, which is sound for every claim below). -/
def parseVal : Nat → List Char → Option (Json × List Char)
  | 0, _ => none
  | fuel + 1, s =>
    match skipWs s with
    | [] => none
    | c :: rest =>
      if c = quoteC then
        match scanStr rest with
        | some (raw, r) => some (.str raw, r)
        | none => none
      else if c = lbraceC then
        match skipWs rest with
        | c2 :: r2 =>
          if c2 = rbraceC then some (.obj [], r2)
          else parseMembers fuel rest []
        | [] => none
      else if c = lbrackC then
        match skipWs rest with
        | c2 :: r2 =>
          if c2 = rbrackC then some (.arr [], r2)
          else parseElems fuel rest []
        | [] => none
      else if c = 't' then
        match expectLit (String.data "rue") rest with
        | some r => some (.boolean true, r)
        | none => none
      else if c = 'f' then
        match expectLit (String.data "alse") rest with
        | some r => some (.boolean false, r)
        | none => none
      else if c = 'n' then
        match expectLit (String.data "ull") rest with
        | some r => some (.null, r)
        | none => none
      else if isDig c || c = '-' then
        match scanNum (c :: rest) with
        | some (raw, r) => some (.num raw, r)
        | none => none
      else none

/-- Parse `"key" : value (, ...)* }` inside an object. -/
def parseMembers : Nat → List Char → List (String × Json) →
    Option (Json × List Char)
  | 0, _, _ => none
  | fuel + 1, s, acc =>
    match skipWs s with
    | [] => none
    | c :: rest =>
      if c = quoteC then
        match scanStr rest with
        | none => none
        | some (rawKey, r) =>
          match skipWs r with
          | c2 :: r2 =>
            if c2 = ':' then
              match parseVal fuel r2 with
              | none => none
              | some (v, r3) =>
                let acc := acc ++ [(⟨unescape rawKey⟩, v)]
                match skipWs r3 with
                | c3 :: r4 =>
                  if c3 = ',' then parseMembers fuel r4 acc
                  else if c3 = rbraceC then some (.obj acc, r4)
                  else none
                | [] => none
            else none
          | [] => none
      else none

/-- Parse `value (, ...)* ]` inside an array. -/
def parseElems : Nat → List Char → List Json → Option (Json × List Char)
  | 0, _, _ => none
  | fuel + 1, s, acc =>
    match parseVal fuel s with
    | none => none
    | some (v, r) =>
      let acc := acc ++ [v]
      match skipWs r with
      | c :: rest =>
        if c = ',' then parseElems fuel rest acc
        else if c = rbrackC then some (.arr acc, rest)
        else none
      | [] => none

end

/-- Model of the syntax-checking front half of `json.Unmarshal`: parse
the whole input, requiring nothing but whitespace after the top-level
value.  `none` models a `SyntaxError`. -/
def jsonParse (s : String) : Option Json :=
  match parseVal (2 * s.data.length + 4) s.data with
  | none => none
  | some (j, rest) => if skipWs rest = [] then some j else none

mutual

/-- The raw characters of a JSON value, as Go's decoder slices them out
of the input and hands them to `UnmarshalJSON`.  String and number
literals reproduce the input exactly (their raw text is kept); composite
values are reconstructed compactly, which can differ from the input only
in interior whitespace of objects and arrays — irrelevant here, since
every composite raw value fails the date parse regardless. -/
def serializeJson (j : Json) : List Char :=
  match j with
  | .null => String.data "null"
  | .boolean true => String.data "true"
  | .boolean false => String.data "false"
  | .num raw => raw
  | .str raw => quoteC :: raw ++ [quoteC]
  | .arr es => lbrackC :: serializeElems es ++ [rbrackC]
  | .obj ms => lbraceC :: serializeMembers ms ++ [rbraceC]

/-- Comma-separated serialization of array elements. -/
def serializeElems : List Json → List Char
  | [] => []
  | e :: rest =>
    serializeJson e ++ (match rest with | [] => [] | _ => [',']) ++ serializeElems rest

/-- Comma-separated serialization of object members. -/
def serializeMembers : List (String × Json) → List Char
  | [] => []
  | (k, v) :: rest =>
    (quoteC :: k.data ++ [quoteC, ':']) ++ serializeJson v ++
      (match rest with | [] => [] | _ => [',']) ++ serializeMembers rest

end

/-- One decoded element of the `trackinfo` array. -/
structure TrackInfo where
  title : String
  trackNum : Int
  fileUrl : String
deriving DecidableEq

/-- The zero value of a track struct. -/
def zeroTrack : TrackInfo := ⟨"", 0, ""⟩

/-- The decoded `bandcampTRAlbum` struct from src/main.go (the embedded
`Current` and per-track `File` structs are flattened into fields). -/
structure TRAlbum where
  artist : String
  currentTitle : String
  currentArtId : Int
  itemType : String
  freeDownloadPage : String
  releaseDate : Timestamp
  trackinfo : List TrackInfo
deriving DecidableEq

/-- The zero `bandcampTRAlbum` value. -/
def zeroAlbum : TRAlbum := ⟨"", "", 0, "", "", zeroTimestamp, []⟩

def asciiLower (c : Char) : Char :=
  if 'A' ≤ c && c ≤ 'Z' then Char.ofNat (c.toNat + 32) else c

/-- Go's case-insensitive JSON-key-to-field matching (ASCII fold; the
exact-match preference cannot matter here because no two field tags
collide up to folding). -/
def foldEq (a b : String) : Bool :=
  a.data.map asciiLower = b.data.map asciiLower

/-- `strconv.ParseInt` on a scanned JSON number literal, for Go `int`
fields: digits only (no fraction or exponent), 64-bit range. -/
def rawToInt (raw : List Char) : Option Int :=
  match raw with
  | '-' :: ds =>
    if ds ≠ [] && ds.all isDig then
      let v : Int := Int.ofNat (ds.foldl (fun a c => a * 10 + digVal c) 0)
      if v ≤ 2 ^ 63 then some (-v) else none
    else none
  | ds =>
    if ds ≠ [] && ds.all isDig then
      let v : Int := Int.ofNat (ds.foldl (fun a c => a * 10 + digVal c) 0)
      if v < 2 ^ 63 then some v else none
    else none

/-- Keep the first saved decoding error, as Go's `d.saveError`. -/
def saveErr (saved : Option GoErr) (e : GoErr) : Option GoErr :=
  match saved with
  | some _ => saved
  | none => some e

/-- Decode a JSON value into a Go `string` field: `null` is a no-op,
a string sets the field, anything else records a type error. -/
def decStrField (old : String) (saved : Option GoErr) (v : Json) :
    String × Option GoErr :=
  match v with
  | .null => (old, saved)
  | .str raw => (⟨unescape raw⟩, saved)
  | _ => (old, saveErr saved (.msg "json: cannot unmarshal value into string field"))

/-- Decode a JSON value into a Go `int` field. -/
def decIntField (old : Int) (saved : Option GoErr) (v : Json) :
    Int × Option GoErr :=
  match v with
  | .null => (old, saved)
  | .num raw =>
    match rawToInt raw with
    | some n => (n, saved)
    | none => (old, saveErr saved (.msg "json: cannot unmarshal number into int field"))
  | _ => (old, saveErr saved (.msg "json: cannot unmarshal value into int field"))

/-- Decode the inner `current` object (`title`, `art_id`). -/
def decCurrent (title : String) (artId : Int) (saved : Option GoErr) (v : Json) :
    String × Int × Option GoErr :=
  match v with
  | .null => (title, artId, saved)
  | .obj ms =>
    ms.foldl
      (fun st m =>
        let (t, a, sv) := st
        if foldEq m.1 "title" then
          let (t', sv') := decStrField t sv m.2
          (t', a, sv')
        else if foldEq m.1 "art_id" then
          let (a', sv') := decIntField a sv m.2
          (t, a', sv')
        else st)
      (title, artId, saved)
  | _ => (title, artId, saveErr saved (.msg "json: cannot unmarshal value into struct field Current"))

/-- Decode one element of `trackinfo` (fresh zero struct per element,
as Go grows a slice). -/
def decTrack (saved : Option GoErr) (v : Json) : TrackInfo × Option GoErr :=
  match v with
  | .null => (zeroTrack, saved)
  | .obj ms =>
    ms.foldl
      (fun st m =>
        let (tr, sv) := st
        if foldEq m.1 "title" then
          let (t', sv') := decStrField tr.title sv m.2
          ({ tr with title := t' }, sv')
        else if foldEq m.1 "track_num" then
          let (n', sv') := decIntField tr.trackNum sv m.2
          ({ tr with trackNum := n' }, sv')
        else if foldEq m.1 "file" then
          match m.2 with
          | .null => st
          | .obj fms =>
            fms.foldl
              (fun st2 fm =>
                let (tr2, sv2) := st2
                if foldEq fm.1 "mp3-128" then
                  let (u', sv2') := decStrField tr2.fileUrl sv2 fm.2
                  ({ tr2 with fileUrl := u' }, sv2')
                else st2)
              st
          | _ => (tr, saveErr sv (.msg "json: cannot unmarshal value into struct field File"))
        else st)
      (zeroTrack, saved)
  | _ => (zeroTrack, saveErr saved (.msg "json: cannot unmarshal value into struct field Trackinfo"))

/-- Decode the `trackinfo` array field. -/
def decTracks (old : List TrackInfo) (saved : Option GoErr) (v : Json) :
    List TrackInfo × Option GoErr :=
  match v with
  | .null => (old, saved)
  | .arr es =>
    es.foldl
      (fun st e =>
        let (ts, sv) := st
        let (tr, sv') := decTrack sv e
        (ts ++ [tr], sv'))
      ([], saved)
  | _ => (old, saveErr saved (.msg "json: cannot unmarshal value into slice field"))

/-- Apply one object member to the album struct, following Go's
`json.Unmarshal`: type mismatches are saved (decoding continues), an
error from `timestamp.UnmarshalJSON` aborts decoding, and its panic
propagates. -/
def applyMember (rec : TRAlbum) (saved : Option GoErr) (k : String) (v : Json) :
    GoResult (TRAlbum × Option GoErr) :=
  if foldEq k "artist" then
    .ok ({ rec with artist := (decStrField rec.artist saved v).1 },
      (decStrField rec.artist saved v).2)
  else if foldEq k "current" then
    .ok ({ rec with
          currentTitle := (decCurrent rec.currentTitle rec.currentArtId saved v).1
          currentArtId := (decCurrent rec.currentTitle rec.currentArtId saved v).2.1 },
      (decCurrent rec.currentTitle rec.currentArtId saved v).2.2)
  else if foldEq k "item_type" then
    .ok ({ rec with itemType := (decStrField rec.itemType saved v).1 },
      (decStrField rec.itemType saved v).2)
  else if foldEq k "freeDownloadPage" then
    .ok ({ rec with freeDownloadPage := (decStrField rec.freeDownloadPage saved v).1 },
      (decStrField rec.freeDownloadPage saved v).2)
  else if foldEq k "album_release_date" then
    match timestampUnmarshalJSON (serializeJson v) with
    | .ok t => .ok ({ rec with releaseDate := t }, saved)
    | .error e => .error e
    | .panicked => .panicked
  else if foldEq k "trackinfo" then
    .ok ({ rec with trackinfo := (decTracks rec.trackinfo saved v).1 },
      (decTracks rec.trackinfo saved v).2)
  else .ok (rec, saved)

/-- Fold `applyMember` over the object members in input order. -/
def decodeMembers (rec : TRAlbum) (saved : Option GoErr) :
    List (String × Json) → GoResult (TRAlbum × Option GoErr)
  | [] => .ok (rec, saved)
  | m :: ms =>
    match applyMember rec saved m.1 m.2 with
    | .ok (rec', saved') => decodeMembers rec' saved' ms
    | .error e => .error e
    | .panicked => .panicked

/-- Decode a parsed JSON value into the `bandcampTRAlbum` struct:
top-level `null` is a no-op (zero struct, no error), a non-object is a
type error, and an object is decoded member by member. -/
def decodeTralbum (j : Json) : GoResult TRAlbum :=
  match j with
  | .null => .ok zeroAlbum
  | .obj ms =>
    match decodeMembers zeroAlbum none ms with
    | .ok (_, some e) => .error e
    | .ok (r, none) => .ok r
    | .error e => .error e
    | .panicked => .panicked
  | _ => .error (.msg "json: cannot unmarshal value into Go value of type bandcampTRAlbum")

/-- `json.Unmarshal([]byte(tralbumValue), &tralbum)` as called by
`downloadAlbum`: full syntax scan, then structural decode. -/
def jsonUnmarshalTralbum (s : String) : GoResult TRAlbum :=
  match jsonParse s with
  | none => .error (.msg "invalid JSON syntax")
  | some j => decodeTralbum j

/-- The node kinds of `golang.org/x/net/html`. -/
inductive NodeType where
  | errorNode
  | textNode
  | documentNode
  | elementNode
  | commentNode
  | doctypeNode
deriving DecidableEq

/-- One HTML attribute (`html.Attribute`; the namespace field is unused
by the program and omitted). -/
structure HAttr where
  key : String
  val : String
deriving DecidableEq

/-- A parsed HTML node (`html.Node`): kind, `Data` (tag name or text),
attributes, and children in document order (the source's
`FirstChild`/`NextSibling` chain). -/
inductive Node where
  | mk (ntype : NodeType) (data : String) (attr : List HAttr) (children : List Node)

def Node.ntype : Node → NodeType
  | .mk t _ _ _ => t

def Node.data : Node → String
  | .mk _ d _ _ => d

def Node.attr : Node → List HAttr
  | .mk _ _ a _ => a

def Node.children : Node → List Node
  | .mk _ _ _ c => c

mutual

/-- `findElementsWithDataKey` from src/main.go: on an element node,
append the node once per attribute whose key equals `key`; then recurse
into the children in order, appending their results. -/
def findElementsWithDataKey (n : Node) (key : String) : List Node :=
  match n with
  | .mk t d a cs =>
    (if t = NodeType.elementNode then
      (a.filter (fun at_ => at_.key = key)).map (fun _ => Node.mk t d a cs)
    else []) ++ findInChildren cs key

/-- The source's child loop `for c := n.FirstChild; ...`. -/
def findInChildren (l : List Node) (key : String) : List Node :=
  match l with
  | [] => []
  | c :: cs => findElementsWithDataKey c key ++ findInChildren cs key

end

/-- `getDataValue` from src/main.go: value of the first attribute whose
key equals `key`, or the empty string. -/
def getDataValue (n : Node) (key : String) : String :=
  match n.attr.find? (fun a => a.key = key) with
  | some a => a.val
  | none => ""

mutual

/-- Pre-order flattening of the document tree: a node precedes its
children, children in document order. -/
def preorder (n : Node) : List Node :=
  match n with
  | .mk t d a cs => Node.mk t d a cs :: preorderList cs

def preorderList (l : List Node) : List Node :=
  match l with
  | [] => []
  | c :: cs => preorder c ++ preorderList cs

end

/-- Whether the source's search yields this node (at least once): an
element node carrying an attribute named `key`. -/
def hasDataKey (n : Node) (key : String) : Bool :=
  n.ntype = NodeType.elementNode && n.attr.any (fun a => a.key = key)

/-- How many attributes of `n` are named `key` (an element is appended
once per matching attribute by the source loop). -/
def attrKeyCount (n : Node) (key : String) : Nat :=
  (n.attr.filter (fun a => a.key = key)).length

/-- One observable side effect of a run, labelled by the source call
site that performs it.  `ok` records whether the external call
succeeded.  File and tag `close` events record handle release
(`f.Close()` calls and the deferred `tag.Close()`). -/
inductive Ev where
  | pageGet (url : String) (ok : Bool)
  | artGet (url : String) (ok : Bool)
  | trackGet (url : String) (ok : Bool)
  | statDir (path : String)
  | mkdirAll (path : String) (ok : Bool)
  | createCover (path : String) (ok : Bool)
  | writeCover (path : String) (ok : Bool)
  | closeCover (path : String)
  | createTrack (path : String) (ok : Bool)
  | writeTrack (path : String) (ok : Bool)
  | closeTrack (path : String)
  | tagOpen (path : String) (ok : Bool)
  | tagSave (path : String) (ok : Bool)
  | tagClose (path : String)
deriving DecidableEq

/-- Filesystem-mutating effects: directory creation, file creation, file
writes.  (`statDir` only inspects.) -/
def Ev.isFsWrite : Ev → Bool
  | .mkdirAll _ _ => true
  | .createCover _ _ => true
  | .writeCover _ _ => true
  | .createTrack _ _ => true
  | .writeTrack _ _ => true
  | _ => false

/-- Art-fetch calls (the two `http.Get`s guarded by `ArtId != 0`). -/
def Ev.isArtGet : Ev → Bool
  | .artGet _ _ => true
  | _ => false

/-- Effects touching the `cover.jpg` file. -/
def Ev.isCoverEv : Ev → Bool
  | .createCover _ _ => true
  | .writeCover _ _ => true
  | .closeCover _ => true
  | _ => false

/-- Effects of the per-track loop body. -/
def Ev.isTrackEv : Ev → Bool
  | .trackGet _ _ => true
  | .createTrack _ _ => true
  | .writeTrack _ _ => true
  | .closeTrack _ => true
  | .tagOpen _ _ => true
  | .tagSave _ _ => true
  | .tagClose _ => true
  | _ => false

/-- `url.URL` as the program uses it: `String()` is modelled as the
scheme-and-host part followed by the path (the only component the
program ever rewrites). -/
structure GoUrl where
  base : String
  path : String
deriving DecidableEq

def GoUrl.toStr (u : GoUrl) : String := u.base ++ u.path

/-- Oracle answering every external call of a run.  `httpGet` returns a
transport error, a response whose body fails to read (`.ok none`), or a
readable body.  The filesystem and tag-library answers give the error a
failing call returns (`none` = success).  The oracle is a function of
the url/path, matching the sequential, deterministic single run being
modelled. -/
structure World where
  httpGet : String → Except GoErr (Option String)
  parseHtml : String → Except GoErr Node
  statNotExist : String → Bool
  mkdirRes : String → Option GoErr
  createRes : String → Option GoErr
  writeRes : String → Option GoErr
  tagOpenRes : String → Option GoErr
  tagSaveRes : String → Option GoErr
  parseUrl : String → Except GoErr GoUrl
  safeNames : Bool

/-- `https://f4.bcbits.com/img/a%d_16.jpg` (small art). -/
def smallArtUrl (artId : Int) : String :=
  "https://f4.bcbits.com/img/a" ++ toString artId ++ "_16.jpg"

/-- `https://f4.bcbits.com/img/a%d_0.jpg` (large art). -/
def largeArtUrl (artId : Int) : String :=
  "https://f4.bcbits.com/img/a" ++ toString artId ++ "_0.jpg"

/-- Go `fmt.Sprintf("%02d", n)`: decimal, zero-padded to width 2. -/
def pad2 (n : Int) : String :=
  let s := toString n
  if s.length < 2 then "0" ++ s else s

/-- Go `Format("2006")`: the year, zero-padded to 4 digits. -/
def pad4 (n : Nat) : String :=
  let s := toString n
  if s.length < 4 then String.mk (List.replicate (4 - s.length) '0') ++ s else s

/-- The year string `tralbum.ReleaseDate.Local().Format("2006")` (local
zone modelled as UTC; see `Timestamp`). -/
def yearString (t : Timestamp) : String := pad4 t.year

/-- `fmt.Sprintf("%s/%s (%s)", artist, title, year)`. -/
def albumPathOf (alb : TRAlbum) : String :=
  alb.artist ++ "/" ++ alb.currentTitle ++ " (" ++ yearString alb.releaseDate ++ ")"

/-- `fmt.Sprintf("%s/%02d %s.mp3", albumPath, track.TrackNum, track.Title)`. -/
def trackPathOf (albumPath : String) (t : TrackInfo) : String :=
  albumPath ++ "/" ++ pad2 t.trackNum ++ " " ++ t.title ++ ".mp3"

/-- The per-track loop of `downloadAlbum`, threading the stack of
deferred `tag.Close()` calls (deferred inside the loop, so they run only
when the whole function returns).  Returns the loop's own events, the
updated defer stack (most recent first), and the error ending the loop,
if any. -/
def tracksLoop (w : World) (albumPath : String) :
    List TrackInfo → List Ev → List Ev × List Ev × Option GoErr
  | [], defers => ([], defers, none)
  | t :: ts, defers =>
    match w.httpGet t.fileUrl with
    | .error e =>
      ([.trackGet t.fileUrl false], defers, some (.wrap "could not fetch track" e))
    | .ok body =>
      let p := trackPathOf albumPath t
      match w.createRes p with
      | some e =>
        ([.trackGet t.fileUrl true, .createTrack p false], defers,
          some (.wrap "could not create track file" e))
      | none =>
        let readFromErr : Option GoErr :=
          match body with
          | none => some (.msg "unexpected EOF")
          | some _ => w.writeRes p
        match readFromErr with
        | some e =>
          ([.trackGet t.fileUrl true, .createTrack p true, .writeTrack p false], defers,
            some (.wrap "could not write track file" e))
        | none =>
          match w.tagOpenRes p with
          | some e =>
            ([.trackGet t.fileUrl true, .createTrack p true, .writeTrack p true,
              .closeTrack p, .tagOpen p false], defers,
              some (.wrap "could not open track file" e))
          | none =>
            let defers := Ev.tagClose p :: defers
            match w.tagSaveRes p with
            | some e =>
              ([.trackGet t.fileUrl true, .createTrack p true, .writeTrack p true,
                .closeTrack p, .tagOpen p true, .tagSave p false], defers,
                some (.wrap "could not save track file" e))
            | none =>
              let (evs, defers', res) := tracksLoop w albumPath ts defers
              ([.trackGet t.fileUrl true, .createTrack p true, .writeTrack p true,
                .closeTrack p, .tagOpen p true, .tagSave p true] ++ evs, defers', res)

/-- The directory / cover / track part of `downloadAlbum`, beginning at
the `os.Stat` call: everything after the art bytes are in hand.
Deferred closes accumulated by the track loop are flushed (LIFO) when
the function returns, on success and on error alike. -/
def albumFilesPhase (w : World) (alb : TRAlbum)
    (_artBytes bigArtBytes : Option String) : List Ev × Outcome :=
  let albumPath := albumPathOf alb
  let statEvs := [Ev.statDir albumPath]
  let (dirEvs, dirErr) :=
    if w.statNotExist albumPath then
      match w.mkdirRes albumPath with
      | some e => ([Ev.mkdirAll albumPath false], some (GoErr.wrap "could not create album directory" e))
      | none => ([Ev.mkdirAll albumPath true], none)
    else ([], none)
  match dirErr with
  | some e => (statEvs ++ dirEvs, .fail e)
  | none =>
    let (coverEvs, coverErr) :=
      match bigArtBytes with
      | none => ([], none)
      | some _ =>
        let artPath := albumPath ++ "/cover.jpg"
        match w.createRes artPath with
        | some e => ([Ev.createCover artPath false], some (GoErr.wrap "could not create large album art file" e))
        | none =>
          match w.writeRes artPath with
          | some e =>
            ([Ev.createCover artPath true, Ev.writeCover artPath false],
              some (GoErr.wrap "could not write large album art file" e))
          | none =>
            ([Ev.createCover artPath true, Ev.writeCover artPath true, Ev.closeCover artPath], none)
    match coverErr with
    | some e => (statEvs ++ dirEvs ++ coverEvs, .fail e)
    | none =>
      let (trackEvs, defers, trackErr) := tracksLoop w albumPath alb.trackinfo []
      let evs := statEvs ++ dirEvs ++ coverEvs ++ trackEvs ++ defers
      match trackErr with
      | some e => (evs, .fail e)
      | none => (evs, .ok)

/-- The art-fetch phase of `downloadAlbum`: when `ArtId != 0`, fetch the
small and then the large art, keeping both payloads in memory. -/
def artPhase (w : World) (alb : TRAlbum) :
    List Ev × GoResult (Option String × Option String) :=
  if alb.currentArtId ≠ 0 then
    let smallUrl := smallArtUrl alb.currentArtId
    match w.httpGet smallUrl with
    | .error e => ([.artGet smallUrl false], .error (.wrap "could not fetch album art" e))
    | .ok none => ([.artGet smallUrl true], .error (.msg "could not read album art"))
    | .ok (some sb) =>
      let largeUrl := largeArtUrl alb.currentArtId
      match w.httpGet largeUrl with
      | .error e =>
        ([.artGet smallUrl true, .artGet largeUrl false],
          .error (.wrap "could not fetch large album art" e))
      | .ok none =>
        ([.artGet smallUrl true, .artGet largeUrl true],
          .error (.msg "could not read large album art"))
      | .ok (some lb) =>
        ([.artGet smallUrl true, .artGet largeUrl true], .ok (some sb, some lb))
  else ([], .ok (none, none))

/-- `downloadAlbum` from the decoded (and possibly sanitized) record on:
art phase, then directory, cover, and tracks. -/
def downloadAlbumDecoded (w : World) (alb : TRAlbum) : List Ev × Outcome :=
  match artPhase w alb with
  | (evs, .error e) => (evs, .fail e)
  | (evs, .panicked) => (evs, .panicked)
  | (evs, .ok (artBytes, bigArtBytes)) =>
    let (evs', out) := albumFilesPhase w alb artBytes bigArtBytes
    (evs ++ evs', out)

/-- The `safeNames` sanitization pass of `downloadAlbum`. -/
def sanitizeAlbum (alb : TRAlbum) : TRAlbum :=
  { alb with
    artist := cleanStringS alb.artist
    currentTitle := cleanStringS alb.currentTitle
    trackinfo := alb.trackinfo.map (fun t => { t with title := cleanStringS t.title }) }

/-- `downloadAlbum` from src/main.go: fetch the page, parse it, locate
the `data-tralbum` element, decode its attribute value, optionally
sanitize names, then perform the download pipeline.  A decode panic
propagates (the program has no recover). -/
def downloadAlbum (w : World) (url : String) : List Ev × Outcome :=
  match w.httpGet url with
  | .error e => ([.pageGet url false], .fail e)
  | .ok none => ([.pageGet url true], .fail (.msg "unexpected EOF"))
  | .ok (some body) =>
    match w.parseHtml body with
    | .error e => ([.pageGet url true], .fail e)
    | .ok doc =>
      match findElementsWithDataKey doc "data-tralbum" with
      | [] => ([.pageGet url true], .fail (.msg "could not find album"))
      | el0 :: _ =>
        let tralbumValue := getDataValue el0 "data-tralbum"
        match jsonUnmarshalTralbum tralbumValue with
        | .error e => ([.pageGet url true], .fail (.wrap "could not parse album JSON" e))
        | .panicked => ([.pageGet url true], .panicked)
        | .ok tralbum0 =>
          let tralbum := if w.safeNames then sanitizeAlbum tralbum0 else tralbum0
          let (evs, out) := downloadAlbumDecoded w tralbum
          ([.pageGet url true] ++ evs, out)

/-- Go `strings.HasPrefix`, at the code-point level. -/
def goHasPrefix (s pre : String) : Bool :=
  s.data.take pre.data.length = pre.data

/-- The child scan of `downloadAlbums`: skip text nodes and children
whose `Data` is not `"a"`; take the first `href` attribute value of the
first qualifying child that has a non-empty one. -/
def firstAnchorHref : List Node → String
  | [] => ""
  | c :: cs =>
    if c.ntype = NodeType.textNode || c.data ≠ "a" then firstAnchorHref cs
    else
      let p := getDataValue c "href"
      if p ≠ "" then p else firstAnchorHref cs

/-- The per-element loop of `downloadAlbums`, threading the accumulated
(chained) error.  A failing album download chains onto the accumulator —
`fmt.Errorf("%w\n%s", err, err2)` — whose base is Go `nil` until the
first failure; the loop then continues with the remaining elements.
A panic below propagates immediately. -/
def albumsLoop (w : World) (u : GoUrl) :
    List Node → Option GoErr → List Ev × GoResult (Option GoErr)
  | [], err => ([], .ok err)
  | el :: els, err =>
    let path := firstAnchorHref el.children
    if goHasPrefix path "/album" then
      match downloadAlbum w (u.base ++ path) with
      | (evs, .panicked) => (evs, .panicked)
      | (evs, .fail e2) =>
        let (evs', r) := albumsLoop w u els (some (.chain (baseOf err) e2))
        (evs ++ evs', r)
      | (evs, .ok) =>
        let (evs', r) := albumsLoop w u els err
        (evs ++ evs', r)
    else albumsLoop w u els err

/-- `downloadAlbums` from src/main.go: fetch the storefront page, parse
it, locate every `data-item-id` element, and try each album link,
chaining all per-album errors into one. -/
def downloadAlbums (w : World) (u : GoUrl) : List Ev × Outcome :=
  match w.httpGet u.toStr with
  | .error e => ([.pageGet u.toStr false], .fail e)
  | .ok none => ([.pageGet u.toStr true], .fail (.msg "unexpected EOF"))
  | .ok (some body) =>
    match w.parseHtml body with
    | .error e => ([.pageGet u.toStr true], .fail e)
    | .ok doc =>
      let els := findElementsWithDataKey doc "data-item-id"
      match albumsLoop w u els none with
      | (evs, .panicked) => ([Ev.pageGet u.toStr true] ++ evs, .panicked)
      | (evs, .ok none) => ([Ev.pageGet u.toStr true] ++ evs, .ok)
      | (evs, .ok (some e)) => ([Ev.pageGet u.toStr true] ++ evs, .fail e)
      | (evs, .error e) => ([Ev.pageGet u.toStr true] ++ evs, .fail e)

/-- The body of `main`'s per-argument loop: parse the URL, default an
empty path to `/music`, dispatch to the storefront or the single-album
path (the latter receives the original argument string), report an error
and carry on.  Returns the argument's events and whether it panicked. -/
def processArg (w : World) (u : String) : List Ev × Bool :=
  match w.parseUrl u with
  | .error _ => ([], false)
  | .ok parsed =>
    let parsed := if parsed.path = "/" || parsed.path = "" then
        { parsed with path := "/music" } else parsed
    if parsed.path = "/music" || parsed.path = "/music/" then
      match downloadAlbums w parsed with
      | (evs, .panicked) => (evs, true)
      | (evs, _) => (evs, false)
    else if goHasPrefix parsed.path "/album" then
      match downloadAlbum w u with
      | (evs, .panicked) => (evs, true)
      | (evs, _) => (evs, false)
    else ([], false)

/-- `main`'s loop over the program arguments: each argument is an
independent unit of work; an album's failure is printed and the loop
continues with the next argument (only a panic stops the program). -/
def mainLoop (w : World) : List String → List Ev × Bool
  | [] => ([], false)
  | u :: rest =>
    let (evs, pan) := processArg w u
    if pan then (evs, true)
    else
      let (evs', pan') := mainLoop w rest
      (evs ++ evs', pan')

/-- The eight characters the substitution table maps. -/
def sanitizeDomain : List Char :=
  ['<', '>', ':', '/', Char.ofNat 92, '|', '?', '*']

theorem msSubst_unmapped (c : Char) (hc : c ∉ sanitizeDomain) : msSubst c = c := by
  simp [sanitizeDomain, List.mem_cons] at hc
  obtain ⟨h1, h2, h3, h4, h5, h6, h7, h8⟩ := hc
  unfold msSubst msStrings
  split_ifs
  all_goals simp_all

/-- C2.  The name sanitizer is a total pure function (it is defined as a
Lean function on all code-point sequences), idempotent, and preserves
length counted in code points. -/
theorem c2_sanitizer_idempotent_length (s : List Char) :
    cleanString (cleanString s) = cleanString s ∧
      (cleanString s).length = s.length := by
  constructor
  · rw [cleanString_eq_map, cleanString_eq_map, List.map_map]
    exact List.map_congr_left (fun c _ => msSubst_idem c)
  · rw [cleanString_eq_map]
    exact List.length_map s msSubst

/-- C7.  The sanitizer substitutes exactly the eight characters of the
fixed table, one replacement character per mapped character, leaves every
other code point unchanged, acts character by character (it distributes
over concatenation), and maps the title `A/B:C` to `A⁄BːC` per the
table. -/
theorem c7_sanitizer_table :
    (∀ a b : List Char, cleanString (a ++ b) = cleanString a ++ cleanString b) ∧
    cleanString ['<'] = ['﹤'] ∧
    cleanString ['>'] = ['﹥'] ∧
    cleanString [':'] = ['ː'] ∧
    cleanString ['/'] = ['⁄'] ∧
    cleanString [Char.ofNat 92] = ['∖'] ∧
    cleanString ['|'] = ['⼁'] ∧
    cleanString ['?'] = ['﹖'] ∧
    cleanString ['*'] = ['﹡'] ∧
    (∀ c : Char, c ∉ sanitizeDomain → cleanString [c] = [c]) ∧
    cleanStringS "A/B:C" = "A⁄BːC" := by
  refine ⟨?_, by decide, by decide, by decide, by decide, by decide, by decide,
    by decide, by decide, ?_, by decide⟩
  · intro a b
    rw [cleanString_eq_map, cleanString_eq_map, cleanString_eq_map, List.map_append]
  · intro c hc
    rw [cleanString_eq_map, List.map_singleton, msSubst_unmapped c hc]

/-- Witness for C7: the theorem applied at the concrete unmapped
character `A`. -/
theorem c7_witness :
    cleanString ['A'] = ['A'] ∧ cleanStringS "A/B:C" = "A⁄BːC" :=
  ⟨(c7_sanitizer_table.2.2.2.2.2.2.2.2.2.1) 'A' (by decide),
    c7_sanitizer_table.2.2.2.2.2.2.2.2.2.2⟩

theorem find_head_part (t : NodeType) (d : String) (a : List HAttr)
    (cs : List Node) (key : String)
    (h : attrKeyCount (Node.mk t d a cs) key ≤ 1) :
    (if t = NodeType.elementNode then
      (a.filter (fun at_ => at_.key = key)).map (fun _ => Node.mk t d a cs)
    else []) =
      if hasDataKey (Node.mk t d a cs) key then [Node.mk t d a cs] else [] := by
  by_cases ht : t = NodeType.elementNode
  · subst ht
    simp only [if_pos rfl, hasDataKey, Node.ntype, Node.attr]
    simp only [attrKeyCount, Node.attr] at h
    by_cases hq : (a.any fun at_ => decide (at_.key = key)) = true
    · have hlen : (a.filter (fun at_ => decide (at_.key = key))).length = 1 := by
        have hpos : 0 < (a.filter (fun at_ => decide (at_.key = key))).length := by
          obtain ⟨x, hx, hpx⟩ := List.any_eq_true.mp hq
          have hm : x ∈ a.filter (fun at_ => decide (at_.key = key)) :=
            List.mem_filter.mpr ⟨hx, hpx⟩
          exact List.length_pos.mpr (List.ne_nil_of_mem hm)
        omega
      rw [List.map_const', hlen]
      simp [hq]
    · have hnil : a.filter (fun at_ => decide (at_.key = key)) = [] := by
        rw [List.filter_eq_nil_iff]
        intro x hx
        simp only [Bool.not_eq_true, List.any_eq_false] at hq
        simp [hq x hx]
      simp [hnil, hq]
  · simp [ht, hasDataKey, Node.ntype]

mutual

theorem find_eq_filter (n : Node) (key : String)
    (h : ∀ m ∈ preorder n, attrKeyCount m key ≤ 1) :
    findElementsWithDataKey n key =
      (preorder n).filter (fun m => hasDataKey m key) := by
  match n with
  | .mk t d a cs =>
    rw [findElementsWithDataKey, preorder]
    rw [List.filter_cons]
    have hhead : attrKeyCount (Node.mk t d a cs) key ≤ 1 := by
      apply h
      rw [preorder]
      exact List.mem_cons_self _ _
    have hrest : ∀ m ∈ preorderList cs, attrKeyCount m key ≤ 1 := by
      intro m hm
      apply h
      rw [preorder]
      exact List.mem_cons_of_mem _ hm
    rw [findIn_eq_filter cs key hrest, find_head_part t d a cs key hhead]
    by_cases hk : hasDataKey (Node.mk t d a cs) key = true
    · simp [hk]
    · simp only [Bool.not_eq_true] at hk
      simp [hk]

theorem findIn_eq_filter (l : List Node) (key : String)
    (h : ∀ m ∈ preorderList l, attrKeyCount m key ≤ 1) :
    findInChildren l key =
      (preorderList l).filter (fun m => hasDataKey m key) := by
  match l with
  | [] => rw [findInChildren, preorderList]; rfl
  | c :: cs =>
    rw [findInChildren, preorderList, List.filter_append]
    have h1 : ∀ m ∈ preorder c, attrKeyCount m key ≤ 1 := by
      intro m hm
      apply h
      rw [preorderList]
      exact List.mem_append.mpr (Or.inl hm)
    have h2 : ∀ m ∈ preorderList cs, attrKeyCount m key ≤ 1 := by
      intro m hm
      apply h
      rw [preorderList]
      exact List.mem_append.mpr (Or.inr hm)
    rw [find_eq_filter c key h1, findIn_eq_filter cs key h2]

end

/-- C3.  On every tree whose elements carry an attribute key at most
once (as trees built by the HTML parser do), the source's search returns
exactly the pre-order traversal filtered to the elements carrying the
key — document order, a node before its children — and in particular the
empty list, not a failure, when no element carries the key. -/
theorem c3_find_preorder (n : Node) (key : String)
    (h : ∀ m ∈ preorder n, attrKeyCount m key ≤ 1) :
    findElementsWithDataKey n key =
      (preorder n).filter (fun m => hasDataKey m key) ∧
    ((∀ m ∈ preorder n, hasDataKey m key = false) →
      findElementsWithDataKey n key = []) := by
  refine ⟨find_eq_filter n key h, fun hnone => ?_⟩
  rw [find_eq_filter n key h]
  exact List.filter_eq_nil_iff.mpr (fun m hm => by simp [hnone m hm])

/-- A small concrete document: a div carrying `data-x` whose child span
also carries it, followed by a text node and a plain paragraph. -/
def sampleDoc : Node :=
  Node.mk NodeType.documentNode "" []
    [Node.mk NodeType.elementNode "div" [⟨"data-x", "v1"⟩]
      [Node.mk NodeType.elementNode "span" [⟨"data-x", "v2"⟩] []],
     Node.mk NodeType.textNode "hello" [] [],
     Node.mk NodeType.elementNode "p" [⟨"class", "c"⟩] []]

/-- Witness for C3: the theorem applied to `sampleDoc` with key
`data-x`, plus a direct evaluation showing the parent is yielded before
its child. -/
theorem c3_witness :
    (findElementsWithDataKey sampleDoc "data-x" =
      (preorder sampleDoc).filter (fun m => hasDataKey m "data-x")) ∧
    (findElementsWithDataKey sampleDoc "data-x").map Node.data = ["div", "span"] :=
  ⟨(c3_find_preorder sampleDoc "data-x" (by decide)).1, by decide⟩

theorem serializeJson_str (raw : List Char) :
    serializeJson (.str raw) = quoteC :: raw ++ [quoteC] := by
  rw [serializeJson]

theorem timestampUnmarshal_serialize_str (raw : List Char) :
    timestampUnmarshalJSON (serializeJson (.str raw)) =
      (match goTimeParse raw with
       | none => .error (.msg "parsing time: bad value for field")
       | some t => .ok t) := by
  rw [serializeJson_str]
  unfold timestampUnmarshalJSON
  rw [if_neg (by simp)]
  have hstrip : ((quoteC :: raw ++ [quoteC]).drop 1).dropLast = raw := by
    simp
  rw [hstrip]

/-- The attribute value `\x7b"album_release_date":5\x7d`: valid JSON
whose `album_release_date` raw value is the single byte `5`. -/
def cexDateNum : String := "\x7b" ++ "\"album_release_date\":5" ++ "\x7d"

/-- C10.  The release-date unmarshaler strips the first and last byte of
the raw JSON value unconditionally: for every raw value of length at
least 2 the interior is parsed (whatever the delimiters are), and every
raw value shorter than 2 bytes — reachable as the raw encoding of a
single-digit number such as `5` — makes the slice expression panic
instead of returning an error, end to end through `json.Unmarshal`. -/
theorem c10_unmarshal_strip_panic :
    (∀ b : List Char, 2 ≤ b.length →
      timestampUnmarshalJSON b =
        (match goTimeParse ((b.drop 1).dropLast) with
         | none => .error (.msg "parsing time: bad value for field")
         | some t => .ok t)) ∧
    (∀ b : List Char, b.length < 2 → timestampUnmarshalJSON b = .panicked) ∧
    timestampUnmarshalJSON ['5'] = .panicked ∧
    decodeTralbum (.obj [("album_release_date", .num ['5'])]) = .panicked ∧
    jsonUnmarshalTralbum cexDateNum = .panicked := by
  refine ⟨?_, ?_, by decide, by decide, by decide⟩
  · intro b hb
    unfold timestampUnmarshalJSON
    rw [if_neg (by omega)]
  · intro b hb
    unfold timestampUnmarshalJSON
    rw [if_pos hb]

/-- Witness for C10: the theorem applied at the raw values `abc` (length
3, non-quote delimiters stripped, interior `b` fails the date parse) and
`5` (length 1 panics). -/
theorem c10_witness :
    timestampUnmarshalJSON ['a', 'b', 'c'] =
      .error (.msg "parsing time: bad value for field") ∧
    timestampUnmarshalJSON ['5'] = .panicked := by
  constructor
  · rw [c10_unmarshal_strip_panic.1 ['a', 'b', 'c'] (by decide)]
    decide
  · exact c10_unmarshal_strip_panic.2.1 ['5'] (by decide)

theorem foldEq_excl (a b k : String) (hab : foldEq a b = false)
    (h : foldEq k a = true) : foldEq k b = false := by
  simp only [foldEq, decide_eq_true_eq] at h
  simp only [foldEq, decide_eq_false_iff_not] at hab ⊢
  rw [h]
  exact hab

theorem applyMember_nondate (rec : TRAlbum) (saved : Option GoErr)
    (k : String) (v : Json) (hk : foldEq k "album_release_date" = false) :
    ∃ rec' saved', applyMember rec saved k v = .ok (rec', saved') := by
  unfold applyMember
  split_ifs with h1 h2 h3 h4 h5 h6 <;>
    first
      | exact ⟨_, _, rfl⟩
      | exact absurd h5 (by simp [hk])

theorem applyMember_bad_date (rec : TRAlbum) (saved : Option GoErr)
    (k : String) (raw : List Char)
    (hk : foldEq k "album_release_date" = true)
    (hraw : goTimeParse raw = none) :
    applyMember rec saved k (.str raw) =
      .error (.msg "parsing time: bad value for field") := by
  unfold applyMember
  rw [if_neg (by simp [foldEq_excl "album_release_date" "artist" k (by decide) hk]),
    if_neg (by simp [foldEq_excl "album_release_date" "current" k (by decide) hk]),
    if_neg (by simp [foldEq_excl "album_release_date" "item_type" k (by decide) hk]),
    if_neg (by simp [foldEq_excl "album_release_date" "freeDownloadPage" k (by decide) hk]),
    if_pos hk, timestampUnmarshal_serialize_str, hraw]

theorem decodeMembers_err (ms : List (String × Json)) :
    ∀ (rec : TRAlbum) (saved : Option GoErr),
    (∃ m ∈ ms, foldEq m.1 "album_release_date" = true) →
    (∀ m ∈ ms, foldEq m.1 "album_release_date" = true →
      ∃ raw, m.2 = Json.str raw ∧ goTimeParse raw = none) →
    (decodeMembers rec saved ms).isErr = true := by
  induction ms with
  | nil =>
    intro rec saved hex _
    simp at hex
  | cons m ms ih =>
    intro rec saved hex hall
    by_cases hk : foldEq m.1 "album_release_date" = true
    · obtain ⟨raw, hv, hparse⟩ := hall m (List.mem_cons_self m ms) hk
      rw [decodeMembers, hv, applyMember_bad_date rec saved m.1 raw hk hparse]
      rfl
    · obtain ⟨r', s', hok⟩ :=
        applyMember_nondate rec saved m.1 m.2 (by simpa using hk)
      rw [decodeMembers, hok]
      apply ih
      · obtain ⟨m', hm', hk'⟩ := hex
        rcases List.mem_cons.mp hm' with hh | hh
        · subst hh; exact absurd hk' hk
        · exact ⟨m', hh, hk'⟩
      · intro m' hm' hk'
        exact hall m' (List.mem_cons_of_mem _ hm') hk'

/-- C1 (amended).  When json decoding of the located attribute value
returns an error — malformed syntax, or any type mismatch other than the
panicking single-byte `album_release_date` raw value — `downloadAlbum`
fails with the `DecodeError` wrapping that underlying error and performs
no filesystem effect at all; any object whose `album_release_date`
members are strings failing the fixed date format makes decoding fail;
and when decoding panics (see C10), `downloadAlbum` performs no
filesystem effect either. -/
theorem c1_decode_error_no_writes :
    (∀ (w : World) (url body : String) (doc el0 : Node) (els : List Node)
        (e : GoErr),
      w.httpGet url = .ok (some body) →
      w.parseHtml body = .ok doc →
      findElementsWithDataKey doc "data-tralbum" = el0 :: els →
      jsonUnmarshalTralbum (getDataValue el0 "data-tralbum") = .error e →
      downloadAlbum w url =
        ([.pageGet url true], .fail (.wrap "could not parse album JSON" e)) ∧
      (downloadAlbum w url).1.all (fun ev => !ev.isFsWrite) = true) ∧
    (∀ ms : List (String × Json),
      (∃ m ∈ ms, foldEq m.1 "album_release_date" = true) →
      (∀ m ∈ ms, foldEq m.1 "album_release_date" = true →
        ∃ raw, m.2 = Json.str raw ∧ goTimeParse raw = none) →
      (decodeTralbum (Json.obj ms)).isErr = true) ∧
    (∀ (w : World) (url body : String) (doc el0 : Node) (els : List Node),
      w.httpGet url = .ok (some body) →
      w.parseHtml body = .ok doc →
      findElementsWithDataKey doc "data-tralbum" = el0 :: els →
      jsonUnmarshalTralbum (getDataValue el0 "data-tralbum") = .panicked →
      downloadAlbum w url = ([.pageGet url true], .panicked) ∧
      (downloadAlbum w url).1.all (fun ev => !ev.isFsWrite) = true) := by
  refine ⟨?_, ?_, ?_⟩
  · intro w url body doc el0 els e h1 h2 h3 h4
    have heq : downloadAlbum w url =
        ([.pageGet url true], .fail (.wrap "could not parse album JSON" e)) := by
      simp only [downloadAlbum, h1, h2, h3, h4]
    exact ⟨heq, by rw [heq]; simp [Ev.isFsWrite]⟩
  · intro ms hex hall
    have h := decodeMembers_err ms zeroAlbum none hex hall
    cases hres : decodeMembers zeroAlbum none ms with
    | ok p =>
      rw [hres] at h
      exact absurd h (by simp [GoResult.isErr])
    | error e =>
      simp only [decodeTralbum]
      rw [hres]
      rfl
    | panicked =>
      rw [hres] at h
      exact absurd h (by simp [GoResult.isErr])
  · intro w url body doc el0 els h1 h2 h3 h4
    have heq : downloadAlbum w url = ([.pageGet url true], .panicked) := by
      simp only [downloadAlbum, h1, h2, h3, h4]
    exact ⟨heq, by rw [heq]; simp [Ev.isFsWrite]⟩

/-- Counterexample to C1 as stated: the structurally valid JSON
`\x7b"album_release_date":5\x7d` is a type mismatch for the
release-date field, yet decoding panics instead of failing with any
`DecodeError`. -/
theorem c1_counterexample :
    jsonUnmarshalTralbum cexDateNum = .panicked ∧
    ∀ e : GoErr, jsonUnmarshalTralbum cexDateNum ≠ .error e := by
  refine ⟨by decide, ?_⟩
  intro e h
  rw [show jsonUnmarshalTralbum cexDateNum = .panicked by decide] at h
  exact GoResult.noConfusion h

/-- A concrete document whose tralbum attribute value is not JSON. -/
def doc1 : Node := .mk .elementNode "div" [⟨"data-tralbum", "xx"⟩] []

/-- A concrete oracle serving `doc1` as the album page. -/
def w1 : World where
  httpGet := fun u => if u = "http://x/album/a" then .ok (some "PAGE1") else .error (.msg "net")
  parseHtml := fun b => if b = "PAGE1" then .ok doc1 else .error (.msg "html")
  statNotExist := fun _ => true
  mkdirRes := fun _ => none
  createRes := fun _ => none
  writeRes := fun _ => none
  tagOpenRes := fun _ => none
  tagSaveRes := fun _ => none
  parseUrl := fun _ => .ok ⟨"http://x", "/album/a"⟩
  safeNames := true

/-- Witness for the amended C1: the theorem applied to the concrete
oracle `w1`, whose page's attribute value is malformed JSON. -/
theorem c1_witness :
    downloadAlbum w1 "http://x/album/a" =
      ([.pageGet "http://x/album/a" true],
        .fail (.wrap "could not parse album JSON" (.msg "invalid JSON syntax"))) ∧
    (downloadAlbum w1 "http://x/album/a").1.all (fun ev => !ev.isFsWrite) = true :=
  c1_decode_error_no_writes.1 w1 "http://x/album/a" "PAGE1" doc1 doc1 []
    (.msg "invalid JSON syntax") rfl rfl rfl (by decide)

theorem tracksLoop_evs (w : World) (albumPath : String) :
    ∀ (ts : List TrackInfo) (defers : List Ev),
    (∀ d ∈ defers, d.isTrackEv = true) →
    (∀ ev ∈ (tracksLoop w albumPath ts defers).1, ev.isTrackEv = true) ∧
    (∀ d ∈ (tracksLoop w albumPath ts defers).2.1, d.isTrackEv = true) := by
  intro ts
  induction ts with
  | nil =>
    intro defers hd
    exact ⟨fun ev h => by simp [tracksLoop] at h,
      fun d h => hd d (by simpa [tracksLoop] using h)⟩
  | cons t ts ih =>
    intro defers hd
    unfold tracksLoop
    cases hg : w.httpGet t.fileUrl with
    | error e =>
      dsimp only
      refine ⟨fun ev h => ?_, fun d h => hd d h⟩
      simp only [List.mem_cons, List.not_mem_nil, or_false] at h
      subst h
      rfl
    | ok body =>
      dsimp only
      cases hc : w.createRes (trackPathOf albumPath t) with
      | some e =>
        dsimp only
        refine ⟨fun ev h => ?_, fun d h => hd d h⟩
        simp only [List.mem_cons, List.not_mem_nil, or_false] at h
        rcases h with rfl | rfl
        all_goals rfl
      | none =>
        dsimp only
        cases hr : (match body with
            | none => some (GoErr.msg "unexpected EOF")
            | some _ => w.writeRes (trackPathOf albumPath t)) with
        | some e =>
          dsimp only
          refine ⟨fun ev h => ?_, fun d h => hd d h⟩
          simp only [List.mem_cons, List.not_mem_nil, or_false] at h
          rcases h with rfl | rfl | rfl
          all_goals rfl
        | none =>
          dsimp only
          cases ho : w.tagOpenRes (trackPathOf albumPath t) with
          | some e =>
            dsimp only
            refine ⟨fun ev h => ?_, fun d h => hd d h⟩
            simp only [List.mem_cons, List.not_mem_nil, or_false] at h
            rcases h with rfl | rfl | rfl | rfl | rfl
            all_goals rfl
          | none =>
            dsimp only
            have hdef : ∀ d ∈ Ev.tagClose (trackPathOf albumPath t) :: defers,
                d.isTrackEv = true := by
              intro d h
              rcases List.mem_cons.mp h with rfl | h
              · rfl
              · exact hd d h
            cases hs : w.tagSaveRes (trackPathOf albumPath t) with
            | some e =>
              dsimp only
              refine ⟨fun ev h => ?_, fun d h => hdef d h⟩
              simp only [List.mem_cons, List.not_mem_nil, or_false] at h
              rcases h with rfl | rfl | rfl | rfl | rfl | rfl
              all_goals rfl
            | none =>
              dsimp only
              obtain ⟨ih1, ih2⟩ :=
                ih (Ev.tagClose (trackPathOf albumPath t) :: defers) hdef
              refine ⟨fun ev h => ?_, fun d h => ih2 d h⟩
              rw [List.mem_append] at h
              rcases h with h | h
              · simp only [List.mem_cons, List.not_mem_nil, or_false] at h
                rcases h with rfl | rfl | rfl | rfl | rfl | rfl
                all_goals rfl
              · exact ih1 ev h

theorem trackEv_not_art_cover (ev : Ev) (h : ev.isTrackEv = true) :
    (!ev.isArtGet && !ev.isCoverEv) = true := by
  cases ev <;> simp_all [Ev.isTrackEv, Ev.isArtGet, Ev.isCoverEv]

theorem albumFilesPhase_no_art_cover (w : World) (alb : TRAlbum) :
    ∀ ev ∈ (albumFilesPhase w alb none none).1,
      (!ev.isArtGet && !ev.isCoverEv) = true := by
  intro ev hev
  have htr := tracksLoop_evs w (albumPathOf alb) alb.trackinfo []
    (fun d hd => absurd hd (List.not_mem_nil d))
  unfold albumFilesPhase at hev
  dsimp only at hev
  by_cases hst : w.statNotExist (albumPathOf alb) = true
  · simp only [hst, if_true] at hev
    cases hm : w.mkdirRes (albumPathOf alb) with
    | some e =>
      rw [hm] at hev
      dsimp only at hev
      simp only [List.mem_append, List.mem_cons, List.not_mem_nil, or_false] at hev
      rcases hev with rfl | rfl
      all_goals rfl
    | none =>
      rw [hm] at hev
      dsimp only at hev
      cases htk : (tracksLoop w (albumPathOf alb) alb.trackinfo []).2.2 with
      | some e =>
        rw [htk] at hev
        dsimp only at hev
        simp only [List.mem_append, List.mem_cons, List.not_mem_nil, or_false,
          false_or, List.append_nil, List.nil_append] at hev
        rcases hev with ((rfl | rfl) | hev) | hev
        · rfl
        · rfl
        · exact trackEv_not_art_cover ev (htr.1 ev hev)
        · exact trackEv_not_art_cover ev (htr.2 ev hev)
      | none =>
        rw [htk] at hev
        dsimp only at hev
        simp only [List.mem_append, List.mem_cons, List.not_mem_nil, or_false,
          false_or, List.append_nil, List.nil_append] at hev
        rcases hev with ((rfl | rfl) | hev) | hev
        · rfl
        · rfl
        · exact trackEv_not_art_cover ev (htr.1 ev hev)
        · exact trackEv_not_art_cover ev (htr.2 ev hev)
  · simp only [Bool.not_eq_true] at hst
    simp only [hst, Bool.false_eq_true, if_false] at hev
    cases htk : (tracksLoop w (albumPathOf alb) alb.trackinfo []).2.2 with
    | some e =>
      rw [htk] at hev
      dsimp only at hev
      simp only [List.mem_append, List.mem_cons, List.not_mem_nil, or_false,
        false_or, List.append_nil, List.nil_append] at hev
      rcases hev with (rfl | hev) | hev
      · rfl
      · exact trackEv_not_art_cover ev (htr.1 ev hev)
      · exact trackEv_not_art_cover ev (htr.2 ev hev)
    | none =>
      rw [htk] at hev
      dsimp only at hev
      simp only [List.mem_append, List.mem_cons, List.not_mem_nil, or_false,
        false_or, List.append_nil, List.nil_append] at hev
      rcases hev with (rfl | hev) | hev
      · rfl
      · exact trackEv_not_art_cover ev (htr.1 ev hev)
      · exact trackEv_not_art_cover ev (htr.2 ev hev)

/-- C5.  For every decoded record with `art_id = 0`, the pipeline after
decoding equals the directory/cover/track phase run with no art bytes —
all other effects unchanged — and its trace contains no art fetch and no
`cover.jpg` effect. -/
theorem c5_art_zero_skips_art (w : World) (alb : TRAlbum)
    (h : alb.currentArtId = 0) :
    downloadAlbumDecoded w alb = albumFilesPhase w alb none none ∧
    (downloadAlbumDecoded w alb).1.all
      (fun ev => !ev.isArtGet && !ev.isCoverEv) = true := by
  have hart : artPhase w alb = ([], .ok (none, none)) := by
    unfold artPhase
    rw [if_neg (by simp [h])]
  have heq : downloadAlbumDecoded w alb = albumFilesPhase w alb none none := by
    unfold downloadAlbumDecoded
    rw [hart]
    dsimp only
    rcases hfp : albumFilesPhase w alb none none with ⟨evs', out⟩
    simp
  refine ⟨heq, ?_⟩
  rw [heq, List.all_eq_true]
  exact albumFilesPhase_no_art_cover w alb

/-- A concrete decoded record with `art_id = 0` and one track. -/
def albZeroArt : TRAlbum :=
  ⟨"A", "T", 0, "album", "", ⟨2020, 1, 1, 0, 0, 0⟩,
    [⟨"One", 1, "http://x/1.mp3"⟩]⟩

/-- Witness for C5: a concrete record with `art_id = 0` and one track,
run against the `w1` oracle; the theorem is applied and the resulting
trace is evaluated. -/
theorem c5_witness :
    downloadAlbumDecoded w1 albZeroArt = albumFilesPhase w1 albZeroArt none none ∧
    (downloadAlbumDecoded w1 albZeroArt).1.all
      (fun ev => !ev.isArtGet && !ev.isCoverEv) = true :=
  c5_art_zero_skips_art w1 albZeroArt rfl

/-- C6.  When the fetched page parses to a document with no
`data-tralbum` element, `downloadAlbum` returns the album-not-found
error (no crash), performs no filesystem effect, and the top-level loop
treats this as recoverable: the argument's events are followed by the
processing of the remaining arguments. -/
theorem c6_not_found_recoverable (w : World) (url body : String) (doc : Node)
    (pu : GoUrl) (rest : List String)
    (h1 : w.httpGet url = .ok (some body))
    (h2 : w.parseHtml body = .ok doc)
    (h3 : findElementsWithDataKey doc "data-tralbum" = [])
    (h4 : w.parseUrl url = .ok pu)
    (h5 : goHasPrefix pu.path "/album" = true) :
    downloadAlbum w url = ([.pageGet url true], .fail (.msg "could not find album")) ∧
    (downloadAlbum w url).1.all (fun ev => !ev.isFsWrite) = true ∧
    processArg w url = ((downloadAlbum w url).1, false) ∧
    mainLoop w (url :: rest) =
      ((downloadAlbum w url).1 ++ (mainLoop w rest).1, (mainLoop w rest).2) := by
  have heq : downloadAlbum w url =
      ([.pageGet url true], .fail (.msg "could not find album")) := by
    simp only [downloadAlbum, h1, h2, h3]
  have hne1 : pu.path ≠ "/" := fun hh => by
    rw [hh] at h5; exact absurd h5 (by decide)
  have hne2 : pu.path ≠ "" := fun hh => by
    rw [hh] at h5; exact absurd h5 (by decide)
  have hne3 : pu.path ≠ "/music" := fun hh => by
    rw [hh] at h5; exact absurd h5 (by decide)
  have hne4 : pu.path ≠ "/music/" := fun hh => by
    rw [hh] at h5; exact absurd h5 (by decide)
  have hproc : processArg w url = ((downloadAlbum w url).1, false) := by
    have hc0 : (decide (pu.path = "/") || decide (pu.path = "")) = false := by
      simp [hne1, hne2]
    have hc1 : (decide (pu.path = "/music") || decide (pu.path = "/music/")) = false := by
      simp [hne3, hne4]
    simp only [processArg, h4, hc0, hc1, Bool.false_eq_true, if_false, h5, if_true, heq]
  refine ⟨heq, by rw [heq]; simp [Ev.isFsWrite], hproc, ?_⟩
  show mainLoop w (url :: rest) = _
  unfold mainLoop
  rw [hproc]
  dsimp only
  rw [if_neg (by simp)]
  cases rest <;> rfl

/-- A concrete oracle whose album page has no `data-tralbum` element. -/
def w6 : World where
  httpGet := fun u => if u = "http://x/album/a" then .ok (some "PAGE6") else .error (.msg "net")
  parseHtml := fun b =>
    if b = "PAGE6" then .ok (.mk .elementNode "div" [] []) else .error (.msg "html")
  statNotExist := fun _ => true
  mkdirRes := fun _ => none
  createRes := fun _ => none
  writeRes := fun _ => none
  tagOpenRes := fun _ => none
  tagSaveRes := fun _ => none
  parseUrl := fun _ => .ok ⟨"http://x", "/album/a"⟩
  safeNames := true

/-- Witness for C6: the theorem applied to the concrete oracle `w6`. -/
theorem c6_witness :
    downloadAlbum w6 "http://x/album/a" =
      ([.pageGet "http://x/album/a" true], .fail (.msg "could not find album")) ∧
    (downloadAlbum w6 "http://x/album/a").1.all (fun ev => !ev.isFsWrite) = true ∧
    processArg w6 "http://x/album/a" = ((downloadAlbum w6 "http://x/album/a").1, false) ∧
    mainLoop w6 ["http://x/album/a", "u2"] =
      ((downloadAlbum w6 "http://x/album/a").1 ++ (mainLoop w6 ["u2"]).1,
        (mainLoop w6 ["u2"]).2) :=
  c6_not_found_recoverable w6 "http://x/album/a" "PAGE6"
    (.mk .elementNode "div" [] []) ⟨"http://x", "/album/a"⟩ ["u2"]
    rfl rfl rfl rfl (by decide)

/-- Select a successfully created track file's path. -/
def createExtract : Ev → Option String
  | .createTrack p true => some p
  | _ => none

/-- Select a track fetch's url. -/
def fetchExtract : Ev → Option String
  | .trackGet u _ => some u
  | _ => none

/-- The paths of the track files the run creates (successful
`os.Create` calls in the track loop), in trace order. -/
def trackCreatePaths (evs : List Ev) : List String :=
  evs.filterMap createExtract

/-- The track audio urls the run fetches, in trace order. -/
def trackFetchUrls (evs : List Ev) : List String :=
  evs.filterMap fetchExtract

def isTagCloseEv : Ev → Bool
  | .tagClose _ => true
  | _ => false

theorem tracksLoop_defers_tagClose (w : World) (albumPath : String) :
    ∀ (ts : List TrackInfo) (defers : List Ev),
    (∀ d ∈ defers, isTagCloseEv d = true) →
    ∀ d ∈ (tracksLoop w albumPath ts defers).2.1, isTagCloseEv d = true := by
  intro ts
  induction ts with
  | nil =>
    intro defers hd d h
    exact hd d (by simpa [tracksLoop] using h)
  | cons t ts ih =>
    intro defers hd
    unfold tracksLoop
    cases hg : w.httpGet t.fileUrl with
    | error e => exact fun d h => hd d h
    | ok body =>
      dsimp only
      cases hc : w.createRes (trackPathOf albumPath t) with
      | some e => exact fun d h => hd d h
      | none =>
        dsimp only
        cases hr : (match body with
            | none => some (GoErr.msg "unexpected EOF")
            | some _ => w.writeRes (trackPathOf albumPath t)) with
        | some e => exact fun d h => hd d h
        | none =>
          dsimp only
          cases ho : w.tagOpenRes (trackPathOf albumPath t) with
          | some e => exact fun d h => hd d h
          | none =>
            dsimp only
            have hdef : ∀ d ∈ Ev.tagClose (trackPathOf albumPath t) :: defers,
                isTagCloseEv d = true := by
              intro d h
              rcases List.mem_cons.mp h with rfl | h
              · rfl
              · exact hd d h
            cases hs : w.tagSaveRes (trackPathOf albumPath t) with
            | some e => exact fun d h => hdef d h
            | none =>
              dsimp only
              exact fun d h =>
                ih (Ev.tagClose (trackPathOf albumPath t) :: defers) hdef d h

theorem tracksLoop_order (w : World) (albumPath : String) :
    ∀ (ts : List TrackInfo) (defers : List Ev),
    (∃ kc, trackCreatePaths (tracksLoop w albumPath ts defers).1 =
      (ts.map (trackPathOf albumPath)).take kc) ∧
    (∃ kf, trackFetchUrls (tracksLoop w albumPath ts defers).1 =
      (ts.map TrackInfo.fileUrl).take kf) ∧
    ((tracksLoop w albumPath ts defers).2.2 = none →
      trackCreatePaths (tracksLoop w albumPath ts defers).1 =
        ts.map (trackPathOf albumPath) ∧
      trackFetchUrls (tracksLoop w albumPath ts defers).1 =
        ts.map TrackInfo.fileUrl) := by
  intro ts
  induction ts with
  | nil =>
    intro defers
    exact ⟨⟨0, by simp [tracksLoop, trackCreatePaths]⟩,
      ⟨0, by simp [tracksLoop, trackFetchUrls]⟩,
      fun _ => ⟨by simp [tracksLoop, trackCreatePaths],
        by simp [tracksLoop, trackFetchUrls]⟩⟩
  | cons t ts ih =>
    intro defers
    unfold tracksLoop
    cases hg : w.httpGet t.fileUrl with
    | error e =>
      dsimp only
      refine ⟨⟨0, by simp [trackCreatePaths, createExtract]⟩,
        ⟨1, by simp [trackFetchUrls, fetchExtract]⟩, fun hres => ?_⟩
      exact absurd hres (by simp)
    | ok body =>
      dsimp only
      cases hc : w.createRes (trackPathOf albumPath t) with
      | some e =>
        dsimp only
        refine ⟨⟨0, by simp [trackCreatePaths, createExtract]⟩,
          ⟨1, by simp [trackFetchUrls, fetchExtract]⟩, fun hres => ?_⟩
        exact absurd hres (by simp)
      | none =>
        dsimp only
        cases hr : (match body with
            | none => some (GoErr.msg "unexpected EOF")
            | some _ => w.writeRes (trackPathOf albumPath t)) with
        | some e =>
          dsimp only
          refine ⟨⟨1, by simp [trackCreatePaths, createExtract]⟩,
            ⟨1, by simp [trackFetchUrls, fetchExtract]⟩, fun hres => ?_⟩
          exact absurd hres (by simp)
        | none =>
          dsimp only
          cases ho : w.tagOpenRes (trackPathOf albumPath t) with
          | some e =>
            dsimp only
            refine ⟨⟨1, by simp [trackCreatePaths, createExtract]⟩,
              ⟨1, by simp [trackFetchUrls, fetchExtract]⟩, fun hres => ?_⟩
            exact absurd hres (by simp)
          | none =>
            dsimp only
            cases hs : w.tagSaveRes (trackPathOf albumPath t) with
            | some e =>
              dsimp only
              refine ⟨⟨1, by simp [trackCreatePaths, createExtract]⟩,
                ⟨1, by simp [trackFetchUrls, fetchExtract]⟩, fun hres => ?_⟩
              exact absurd hres (by simp)
            | none =>
              dsimp only
              obtain ⟨⟨kc, hkc⟩, ⟨kf, hkf⟩, hfull⟩ :=
                ih (Ev.tagClose (trackPathOf albumPath t) :: defers)
              refine ⟨⟨kc + 1, ?_⟩, ⟨kf + 1, ?_⟩, fun hres => ?_⟩
              · simp only [trackCreatePaths, List.filterMap_append] at hkc ⊢
                simp [hkc, createExtract, fetchExtract, List.map_cons]
              · simp only [trackFetchUrls, List.filterMap_append] at hkf ⊢
                simp [hkf, createExtract, fetchExtract, List.map_cons]
              · obtain ⟨hfc, hff⟩ := hfull hres
                constructor
                · simp only [trackCreatePaths, List.filterMap_append] at hfc ⊢
                  simp [hfc, createExtract, fetchExtract, List.map_cons]
                · simp only [trackFetchUrls, List.filterMap_append] at hff ⊢
                  simp [hff, createExtract, fetchExtract, List.map_cons]

theorem tagClose_extract_none (d : Ev) (h : isTagCloseEv d = true) :
    createExtract d = none ∧ fetchExtract d = none := by
  cases d <;> first
    | exact ⟨rfl, rfl⟩
    | exact Bool.noConfusion h

theorem albumFilesPhase_track_extract (w : World) (alb : TRAlbum)
    (a b : Option String) :
    (∃ kc, trackCreatePaths (albumFilesPhase w alb a b).1 =
      (alb.trackinfo.map (trackPathOf (albumPathOf alb))).take kc) ∧
    (∃ kf, trackFetchUrls (albumFilesPhase w alb a b).1 =
      (alb.trackinfo.map TrackInfo.fileUrl).take kf) ∧
    ((albumFilesPhase w alb a b).2 = .ok →
      trackCreatePaths (albumFilesPhase w alb a b).1 =
        alb.trackinfo.map (trackPathOf (albumPathOf alb)) ∧
      trackFetchUrls (albumFilesPhase w alb a b).1 =
        alb.trackinfo.map TrackInfo.fileUrl) := by
  have hdefers := tracksLoop_defers_tagClose w (albumPathOf alb) alb.trackinfo []
    (fun d hd => absurd hd (List.not_mem_nil d))
  have hdc : trackCreatePaths (tracksLoop w (albumPathOf alb) alb.trackinfo []).2.1 = [] := by
    rw [trackCreatePaths, List.filterMap_eq_nil_iff]
    exact fun d hd => (tagClose_extract_none d (hdefers d hd)).1
  have hdf : trackFetchUrls (tracksLoop w (albumPathOf alb) alb.trackinfo []).2.1 = [] := by
    rw [trackFetchUrls, List.filterMap_eq_nil_iff]
    exact fun d hd => (tagClose_extract_none d (hdefers d hd)).2
  obtain ⟨⟨kc, hkc⟩, ⟨kf, hkf⟩, hfull⟩ :=
    tracksLoop_order w (albumPathOf alb) alb.trackinfo []
  unfold albumFilesPhase
  dsimp only
  by_cases hst : w.statNotExist (albumPathOf alb) = true
  case pos =>
    simp only [hst, if_true]
    cases hm : w.mkdirRes (albumPathOf alb) with
    | some e =>
      dsimp only
      exact ⟨⟨0, by simp [trackCreatePaths, createExtract]⟩, ⟨0, by simp [trackFetchUrls, fetchExtract]⟩,
        fun hres => absurd hres (by simp)⟩
    | none =>
      dsimp only
      cases b with
      | none =>
        dsimp only
        cases htk : (tracksLoop w (albumPathOf alb) alb.trackinfo []).2.2 with
        | some e =>
          dsimp only
          refine ⟨⟨kc, ?_⟩, ⟨kf, ?_⟩, fun hres => absurd hres (by simp)⟩
          · simp only [trackCreatePaths] at hkc hdc ⊢
            simp [createExtract, List.filterMap_append, hkc, hdc]
          · simp only [trackFetchUrls] at hkf hdf ⊢
            simp [fetchExtract, List.filterMap_append, hkf, hdf]
        | none =>
          dsimp only
          obtain ⟨hfc, hff⟩ := hfull htk
          refine ⟨⟨kc, ?_⟩, ⟨kf, ?_⟩, fun _ => ⟨?_, ?_⟩⟩
          · simp only [trackCreatePaths] at hkc hdc ⊢
            simp [createExtract, List.filterMap_append, hkc, hdc]
          · simp only [trackFetchUrls] at hkf hdf ⊢
            simp [fetchExtract, List.filterMap_append, hkf, hdf]
          · simp only [trackCreatePaths] at hfc hdc ⊢
            simp [createExtract, List.filterMap_append, hfc, hdc]
          · simp only [trackFetchUrls] at hff hdf ⊢
            simp [fetchExtract, List.filterMap_append, hff, hdf]
      | some bb =>
        dsimp only
        cases hcc : w.createRes (albumPathOf alb ++ "/cover.jpg") with
        | some e =>
          dsimp only
          exact ⟨⟨0, by simp [trackCreatePaths, createExtract]⟩, ⟨0, by simp [trackFetchUrls, fetchExtract]⟩,
            fun hres => absurd hres (by simp)⟩
        | none =>
          dsimp only
          cases hcw : w.writeRes (albumPathOf alb ++ "/cover.jpg") with
          | some e =>
            dsimp only
            exact ⟨⟨0, by simp [trackCreatePaths, createExtract]⟩, ⟨0, by simp [trackFetchUrls, fetchExtract]⟩,
              fun hres => absurd hres (by simp)⟩
          | none =>
            dsimp only
            cases htk : (tracksLoop w (albumPathOf alb) alb.trackinfo []).2.2 with
            | some e =>
              dsimp only
              refine ⟨⟨kc, ?_⟩, ⟨kf, ?_⟩, fun hres => absurd hres (by simp)⟩
              · simp only [trackCreatePaths] at hkc hdc ⊢
                simp [createExtract, List.filterMap_append, hkc, hdc]
              · simp only [trackFetchUrls] at hkf hdf ⊢
                simp [fetchExtract, List.filterMap_append, hkf, hdf]
            | none =>
              dsimp only
              obtain ⟨hfc, hff⟩ := hfull htk
              refine ⟨⟨kc, ?_⟩, ⟨kf, ?_⟩, fun _ => ⟨?_, ?_⟩⟩
              · simp only [trackCreatePaths] at hkc hdc ⊢
                simp [createExtract, List.filterMap_append, hkc, hdc]
              · simp only [trackFetchUrls] at hkf hdf ⊢
                simp [fetchExtract, List.filterMap_append, hkf, hdf]
              · simp only [trackCreatePaths] at hfc hdc ⊢
                simp [createExtract, List.filterMap_append, hfc, hdc]
              · simp only [trackFetchUrls] at hff hdf ⊢
                simp [fetchExtract, List.filterMap_append, hff, hdf]
  case neg =>
    simp only [Bool.not_eq_true] at hst
    simp only [hst, Bool.false_eq_true, if_false]
    cases b with
    | none =>
      dsimp only
      cases htk : (tracksLoop w (albumPathOf alb) alb.trackinfo []).2.2 with
      | some e =>
        dsimp only
        refine ⟨⟨kc, ?_⟩, ⟨kf, ?_⟩, fun hres => absurd hres (by simp)⟩
        · simp only [trackCreatePaths] at hkc hdc ⊢
          simp [createExtract, List.filterMap_append, hkc, hdc]
        · simp only [trackFetchUrls] at hkf hdf ⊢
          simp [fetchExtract, List.filterMap_append, hkf, hdf]
      | none =>
        dsimp only
        obtain ⟨hfc, hff⟩ := hfull htk
        refine ⟨⟨kc, ?_⟩, ⟨kf, ?_⟩, fun _ => ⟨?_, ?_⟩⟩
        · simp only [trackCreatePaths] at hkc hdc ⊢
          simp [createExtract, List.filterMap_append, hkc, hdc]
        · simp only [trackFetchUrls] at hkf hdf ⊢
          simp [fetchExtract, List.filterMap_append, hkf, hdf]
        · simp only [trackCreatePaths] at hfc hdc ⊢
          simp [createExtract, List.filterMap_append, hfc, hdc]
        · simp only [trackFetchUrls] at hff hdf ⊢
          simp [fetchExtract, List.filterMap_append, hff, hdf]
    | some bb =>
      dsimp only
      cases hcc : w.createRes (albumPathOf alb ++ "/cover.jpg") with
      | some e =>
        dsimp only
        exact ⟨⟨0, by simp [trackCreatePaths, createExtract]⟩, ⟨0, by simp [trackFetchUrls, fetchExtract]⟩,
          fun hres => absurd hres (by simp)⟩
      | none =>
        dsimp only
        cases hcw : w.writeRes (albumPathOf alb ++ "/cover.jpg") with
        | some e =>
          dsimp only
          exact ⟨⟨0, by simp [trackCreatePaths, createExtract]⟩, ⟨0, by simp [trackFetchUrls, fetchExtract]⟩,
            fun hres => absurd hres (by simp)⟩
        | none =>
          dsimp only
          cases htk : (tracksLoop w (albumPathOf alb) alb.trackinfo []).2.2 with
          | some e =>
            dsimp only
            refine ⟨⟨kc, ?_⟩, ⟨kf, ?_⟩, fun hres => absurd hres (by simp)⟩
            · simp only [trackCreatePaths] at hkc hdc ⊢
              simp [createExtract, List.filterMap_append, hkc, hdc]
            · simp only [trackFetchUrls] at hkf hdf ⊢
              simp [fetchExtract, List.filterMap_append, hkf, hdf]
          | none =>
            dsimp only
            obtain ⟨hfc, hff⟩ := hfull htk
            refine ⟨⟨kc, ?_⟩, ⟨kf, ?_⟩, fun _ => ⟨?_, ?_⟩⟩
            · simp only [trackCreatePaths] at hkc hdc ⊢
              simp [createExtract, List.filterMap_append, hkc, hdc]
            · simp only [trackFetchUrls] at hkf hdf ⊢
              simp [fetchExtract, List.filterMap_append, hkf, hdf]
            · simp only [trackCreatePaths] at hfc hdc ⊢
              simp [createExtract, List.filterMap_append, hfc, hdc]
            · simp only [trackFetchUrls] at hff hdf ⊢
              simp [fetchExtract, List.filterMap_append, hff, hdf]

theorem artPhase_extract (w : World) (alb : TRAlbum) :
    trackCreatePaths (artPhase w alb).1 = [] ∧
    trackFetchUrls (artPhase w alb).1 = [] := by
  unfold artPhase
  by_cases h : alb.currentArtId ≠ 0
  · rw [if_pos h]
    dsimp only
    cases hg : w.httpGet (smallArtUrl alb.currentArtId) with
    | error e => exact ⟨rfl, rfl⟩
    | ok body =>
      cases body with
      | none => exact ⟨rfl, rfl⟩
      | some sb =>
        dsimp only
        cases hg2 : w.httpGet (largeArtUrl alb.currentArtId) with
        | error e => exact ⟨rfl, rfl⟩
        | ok body2 =>
          cases body2 with
          | none => exact ⟨rfl, rfl⟩
          | some lb => exact ⟨rfl, rfl⟩
  · rw [if_neg h]
    exact ⟨rfl, rfl⟩

/-- C4.  The pipeline after decoding fetches and creates track files in
the order given by the record's `trackinfo` array — the sequences of
track fetches and of track-file creations are always prefixes of the
array mapped in order, and on a fully successful run they are exactly
the array mapped in order, not resorted by track number. -/
theorem c4_track_order (w : World) (alb : TRAlbum) :
    (∃ kc, trackCreatePaths (downloadAlbumDecoded w alb).1 =
      (alb.trackinfo.map (trackPathOf (albumPathOf alb))).take kc) ∧
    (∃ kf, trackFetchUrls (downloadAlbumDecoded w alb).1 =
      (alb.trackinfo.map TrackInfo.fileUrl).take kf) ∧
    ((downloadAlbumDecoded w alb).2 = .ok →
      trackCreatePaths (downloadAlbumDecoded w alb).1 =
        alb.trackinfo.map (trackPathOf (albumPathOf alb)) ∧
      trackFetchUrls (downloadAlbumDecoded w alb).1 =
        alb.trackinfo.map TrackInfo.fileUrl) := by
  unfold downloadAlbumDecoded
  rcases hap : artPhase w alb with ⟨evsA, resA⟩
  have hA : trackCreatePaths evsA = [] ∧ trackFetchUrls evsA = [] := by
    have h := artPhase_extract w alb
    rw [hap] at h
    exact h
  simp only [trackCreatePaths, trackFetchUrls] at hA
  cases resA with
  | error e =>
    dsimp only
    refine ⟨⟨0, ?_⟩, ⟨0, ?_⟩, fun hres => absurd hres (by simp)⟩
    · simpa [trackCreatePaths] using hA.1
    · simpa [trackFetchUrls, trackFetchUrls] using hA.2
  | panicked =>
    dsimp only
    refine ⟨⟨0, ?_⟩, ⟨0, ?_⟩, fun hres => absurd hres (by simp)⟩
    · simpa [trackCreatePaths] using hA.1
    · simpa [trackFetchUrls] using hA.2
  | ok ab =>
    rcases ab with ⟨aB, bB⟩
    dsimp only
    obtain ⟨⟨kc, hkc⟩, ⟨kf, hkf⟩, hfull⟩ := albumFilesPhase_track_extract w alb aB bB
    rcases hfp : albumFilesPhase w alb aB bB with ⟨evsF, outF⟩
    rw [hfp] at hkc hkf hfull
    dsimp only at hkc hkf hfull ⊢
    refine ⟨⟨kc, ?_⟩, ⟨kf, ?_⟩, fun hres => ?_⟩
    · simp only [trackCreatePaths, List.filterMap_append] at hkc ⊢
      simp [hA.1, hkc]
    · simp only [trackFetchUrls, List.filterMap_append] at hkf ⊢
      simp [hA.2, hkf]
    · obtain ⟨hfc, hff⟩ := hfull hres
      constructor
      · simp only [trackCreatePaths, List.filterMap_append] at hfc ⊢
        simp [hA.1, hfc]
      · simp only [trackFetchUrls, List.filterMap_append] at hff ⊢
        simp [hA.2, hff]

/-- An oracle where every external call succeeds. -/
def wOk : World where
  httpGet := fun _ => .ok (some "BYTES")
  parseHtml := fun _ => .ok (.mk .elementNode "html" [] [])
  statNotExist := fun _ => true
  mkdirRes := fun _ => none
  createRes := fun _ => none
  writeRes := fun _ => none
  tagOpenRes := fun _ => none
  tagSaveRes := fun _ => none
  parseUrl := fun _ => .ok ⟨"http://x", "/album/a"⟩
  safeNames := true

/-- A decoded record whose `trackinfo` holds track number 2 first and
track number 1 second, in that array order. -/
def albTwoOne : TRAlbum :=
  ⟨"A", "T", 0, "album", "", ⟨2020, 1, 1, 0, 0, 0⟩,
    [⟨"Two", 2, "http://x/2.mp3"⟩, ⟨"One", 1, "http://x/1.mp3"⟩]⟩

/-- Witness for C4: on the all-success oracle, the track with number 2
is created before the track with number 1, following the array order. -/
theorem c4_witness :
    trackCreatePaths (downloadAlbumDecoded wOk albTwoOne).1 =
      albTwoOne.trackinfo.map (trackPathOf (albumPathOf albTwoOne)) ∧
    trackCreatePaths (downloadAlbumDecoded wOk albTwoOne).1 =
      ["A/T (2020)/02 Two.mp3", "A/T (2020)/01 One.mp3"] :=
  ⟨((c4_track_order wOk albTwoOne).2.2 (by decide)).1, by decide⟩

/-- The album paths the storefront loop tries: for each located element,
its first anchor child's href, kept when it begins with `/album`. -/
def albumLinkPaths (els : List Node) : List String :=
  els.filterMap (fun el =>
    let p := firstAnchorHref el.children
    if goHasPrefix p "/album" then some p else none)

/-- The per-album errors of the storefront loop, in element order. -/
def albumFailuresOf (w : World) (u : GoUrl) (els : List Node) : List GoErr :=
  (albumLinkPaths els).filterMap (fun p =>
    match (downloadAlbum w (u.base ++ p)).2 with
    | .fail e => some e
    | _ => none)

/-- The concatenated traces of every album attempt of the storefront
loop, in element order. -/
def albumTracesOf (w : World) (u : GoUrl) (els : List Node) : List Ev :=
  ((albumLinkPaths els).map (fun p => (downloadAlbum w (u.base ++ p)).1)).flatten

theorem albumsLoop_spec (w : World) (u : GoUrl) :
    ∀ (els : List Node) (err : Option GoErr),
    (∀ p ∈ albumLinkPaths els, (downloadAlbum w (u.base ++ p)).2 ≠ .panicked) →
    albumsLoop w u els err =
      (albumTracesOf w u els,
        .ok ((albumFailuresOf w u els).foldl
          (fun a e => some (GoErr.chain (baseOf a) e)) err)) := by
  intro els
  induction els with
  | nil =>
    intro err _
    simp [albumsLoop, albumTracesOf, albumFailuresOf, albumLinkPaths]
  | cons el els ih =>
    intro err hnp
    have hlp : albumLinkPaths (el :: els) =
        (if goHasPrefix (firstAnchorHref el.children) "/album" then
          [firstAnchorHref el.children] else []) ++ albumLinkPaths els := by
      simp only [albumLinkPaths, List.filterMap_cons]
      by_cases hpre : goHasPrefix (firstAnchorHref el.children) "/album" = true
      · simp [hpre]
      · simp only [Bool.not_eq_true] at hpre
        simp [hpre]
    unfold albumsLoop
    by_cases hpre : goHasPrefix (firstAnchorHref el.children) "/album" = true
    · rw [if_pos hpre]
      have hmem : firstAnchorHref el.children ∈ albumLinkPaths (el :: els) := by
        rw [hlp, hpre]
        simp
      have hnp' : ∀ p ∈ albumLinkPaths els,
          (downloadAlbum w (u.base ++ p)).2 ≠ .panicked := by
        intro p hp
        apply hnp
        rw [hlp]
        exact List.mem_append.mpr (Or.inr hp)
      rcases hda : downloadAlbum w (u.base ++ firstAnchorHref el.children) with ⟨evs, out⟩
      cases out with
      | panicked => exact absurd (by rw [hda]) (hnp _ hmem)
      | fail e2 =>
        dsimp only
        rw [ih (some (GoErr.chain (baseOf err) e2)) hnp']
        have htr : albumTracesOf w u (el :: els) =
            evs ++ albumTracesOf w u els := by
          simp only [albumTracesOf, hlp, hpre, if_true, List.map_append, List.flatten_append]
          simp [hda]
        have hfl : albumFailuresOf w u (el :: els) =
            e2 :: albumFailuresOf w u els := by
          simp only [albumFailuresOf, hlp, hpre, if_true, List.filterMap_append]
          simp [hda]
        rw [htr, hfl]
        simp
      | ok =>
        dsimp only
        rw [ih err hnp']
        have htr : albumTracesOf w u (el :: els) =
            evs ++ albumTracesOf w u els := by
          simp only [albumTracesOf, hlp, hpre, if_true, List.map_append, List.flatten_append]
          simp [hda]
        have hfl : albumFailuresOf w u (el :: els) = albumFailuresOf w u els := by
          simp only [albumFailuresOf, hlp, hpre, if_true, List.filterMap_append]
          simp [hda]
        rw [htr, hfl]
    · simp only [Bool.not_eq_true] at hpre
      rw [if_neg (by simp [hpre])]
      have htr : albumTracesOf w u (el :: els) = albumTracesOf w u els := by
        simp [albumTracesOf, hlp, hpre]
      have hfl : albumFailuresOf w u (el :: els) = albumFailuresOf w u els := by
        simp [albumFailuresOf, hlp, hpre]
      rw [ih err (fun p hp => hnp p (by rw [hlp]; exact List.mem_append.mpr (Or.inr hp))),
        htr, hfl]

theorem foldl_chain_some (rest : List GoErr) :
    ∀ acc : GoErr,
    rest.foldl (fun a e => some (GoErr.chain (baseOf a) e)) (some acc) =
      some (rest.foldl (fun a e => GoErr.chain a e) acc) := by
  induction rest with
  | nil => intro acc; rfl
  | cons e rest ih =>
    intro acc
    rw [List.foldl_cons, List.foldl_cons]
    exact ih (.chain acc e)

theorem foldl_chain_none (e1 : GoErr) (rest : List GoErr) :
    (e1 :: rest).foldl (fun a e => some (GoErr.chain (baseOf a) e)) none =
      some (rest.foldl (fun a e => GoErr.chain a e) (GoErr.chain GoErr.nilErr e1)) := by
  rw [List.foldl_cons]
  exact foldl_chain_some rest (GoErr.chain GoErr.nilErr e1)

/-- C8.  The storefront fan-out visits every album link even after
failures — its trace is the concatenation of all attempts — and its
result chains all per-album errors in order; the very first failure is
wrapped around the nil base error. -/
theorem c8_storefront_chains (w : World) (u : GoUrl) (body : String)
    (doc : Node) (els : List Node)
    (h1 : w.httpGet u.toStr = .ok (some body))
    (h2 : w.parseHtml body = .ok doc)
    (h3 : findElementsWithDataKey doc "data-item-id" = els)
    (hnp : ∀ p ∈ albumLinkPaths els,
      (downloadAlbum w (u.base ++ p)).2 ≠ .panicked) :
    downloadAlbums w u =
      ([Ev.pageGet u.toStr true] ++ albumTracesOf w u els,
        match (albumFailuresOf w u els).foldl
            (fun a e => some (GoErr.chain (baseOf a) e)) none with
        | none => .ok
        | some e => .fail e) ∧
    (∀ e1 rest, albumFailuresOf w u els = e1 :: rest →
      (downloadAlbums w u).2 =
        .fail (rest.foldl (fun a e => GoErr.chain a e) (GoErr.chain GoErr.nilErr e1))) := by
  have hloop := albumsLoop_spec w u els none hnp
  have heq : downloadAlbums w u =
      ([Ev.pageGet u.toStr true] ++ albumTracesOf w u els,
        match (albumFailuresOf w u els).foldl
            (fun a e => some (GoErr.chain (baseOf a) e)) none with
        | none => .ok
        | some e => .fail e) := by
    simp only [downloadAlbums, h1, h2, h3, hloop]
    cases hfold : (albumFailuresOf w u els).foldl
        (fun a e => some (GoErr.chain (baseOf a) e)) none with
    | none => rfl
    | some e => rfl
  refine ⟨heq, fun e1 rest hfl => ?_⟩
  rw [heq]
  rw [hfl, foldl_chain_none]

/-- A concrete storefront page: two `data-item-id` items whose anchors
link to `/album/1` and `/album/2`. -/
def docStore : Node :=
  .mk .documentNode "" []
    [.mk .elementNode "li" [⟨"data-item-id", "1"⟩]
      [.mk .elementNode "a" [⟨"href", "/album/1"⟩] []],
     .mk .elementNode "li" [⟨"data-item-id", "2"⟩]
      [.mk .elementNode "a" [⟨"href", "/album/2"⟩] []]]

/-- A concrete oracle where the first album's page fetch fails and the
second album's page has no tralbum data. -/
def w8 : World where
  httpGet := fun url =>
    if url = "http://x/music" then .ok (some "STORE")
    else if url = "http://x/album/2" then .ok (some "PAGE8")
    else .error (.msg "net1")
  parseHtml := fun b =>
    if b = "STORE" then .ok docStore
    else if b = "PAGE8" then .ok (.mk .elementNode "div" [] [])
    else .error (.msg "html")
  statNotExist := fun _ => true
  mkdirRes := fun _ => none
  createRes := fun _ => none
  writeRes := fun _ => none
  tagOpenRes := fun _ => none
  tagSaveRes := fun _ => none
  parseUrl := fun _ => .ok ⟨"http://x", "/music"⟩
  safeNames := true

/-- Witness for C8: both album links are attempted (the first failure
does not stop the second), and the chained result wraps the first
failure around the nil base error. -/
theorem c8_witness :
    (downloadAlbums w8 ⟨"http://x", "/music"⟩).2 =
      .fail (.chain (.chain .nilErr (.msg "net1"))
        (.msg "could not find album")) := by
  have h := (c8_storefront_chains w8 ⟨"http://x", "/music"⟩ "STORE" docStore
      (findElementsWithDataKey docStore "data-item-id") rfl rfl rfl
      (by decide)).2
      (.msg "net1") [.msg "could not find album"] (by decide)
  exact h

/-- Path of a successfully opened cover-art file handle. -/
def coverOpenExtract : Ev → Option String
  | .createCover p true => some p
  | _ => none

/-- Path of a released cover-art file handle. -/
def coverCloseExtract : Ev → Option String
  | .closeCover p => some p
  | _ => none

/-- Path of a released track file handle. -/
def trackCloseExtract : Ev → Option String
  | .closeTrack p => some p
  | _ => none

/-- Path of a successfully opened tag container. -/
def tagOpenExtract : Ev → Option String
  | .tagOpen p true => some p
  | _ => none

/-- Path of a released tag container. -/
def tagCloseExtract : Ev → Option String
  | .tagClose p => some p
  | _ => none

def coverOpenPaths (evs : List Ev) : List String := evs.filterMap coverOpenExtract

def coverClosePaths (evs : List Ev) : List String := evs.filterMap coverCloseExtract

def trackClosePaths (evs : List Ev) : List String := evs.filterMap trackCloseExtract

def tagOpenPaths (evs : List Ev) : List String := evs.filterMap tagOpenExtract

def tagClosePaths (evs : List Ev) : List String := evs.filterMap tagCloseExtract

/-- The handle-release property C9 claims of a whole run: every
successfully opened cover file, track file, and tag container is
released by a matching close before the function returns. -/
def allHandlesClosedB (evs : List Ev) : Bool :=
  ((coverOpenPaths evs).all (fun p =>
      (coverOpenPaths evs).count p ≤ (coverClosePaths evs).count p)) &&
  ((trackCreatePaths evs).all (fun p =>
      (trackCreatePaths evs).count p ≤ (trackClosePaths evs).count p)) &&
  ((tagOpenPaths evs).all (fun p =>
      (tagOpenPaths evs).count p ≤ (tagClosePaths evs).count p))

/-- The track loop emits no `tagClose` into its own trace; all deferred
closes are stacked (most recent first) onto the incoming defer list, one
per successfully opened tag container, in reverse open order. -/
theorem tracksLoop_tags (w : World) (albumPath : String) :
    ∀ (ts : List TrackInfo) (defers : List Ev),
    tagClosePaths (tracksLoop w albumPath ts defers).1 = [] ∧
    (tracksLoop w albumPath ts defers).2.1 =
      ((tagOpenPaths (tracksLoop w albumPath ts defers).1).reverse.map Ev.tagClose)
        ++ defers := by
  intro ts
  induction ts with
  | nil =>
    intro defers
    constructor
    · simp [tracksLoop, tagClosePaths]
    · simp [tracksLoop, tagOpenPaths]
  | cons t ts ih =>
    intro defers
    unfold tracksLoop
    cases hg : w.httpGet t.fileUrl with
    | error e =>
      dsimp only
      exact ⟨by simp [tagClosePaths, tagCloseExtract],
        by simp [tagOpenPaths, tagOpenExtract]⟩
    | ok body =>
      dsimp only
      cases hc : w.createRes (trackPathOf albumPath t) with
      | some e =>
        dsimp only
        exact ⟨by simp [tagClosePaths, tagCloseExtract],
          by simp [tagOpenPaths, tagOpenExtract]⟩
      | none =>
        dsimp only
        cases hr : (match body with
            | none => some (GoErr.msg "unexpected EOF")
            | some _ => w.writeRes (trackPathOf albumPath t)) with
        | some e =>
          dsimp only
          exact ⟨by simp [tagClosePaths, tagCloseExtract],
            by simp [tagOpenPaths, tagOpenExtract]⟩
        | none =>
          dsimp only
          cases ho : w.tagOpenRes (trackPathOf albumPath t) with
          | some e =>
            dsimp only
            exact ⟨by simp [tagClosePaths, tagCloseExtract],
              by simp [tagOpenPaths, tagOpenExtract]⟩
          | none =>
            dsimp only
            cases hs : w.tagSaveRes (trackPathOf albumPath t) with
            | some e =>
              dsimp only
              exact ⟨by simp [tagClosePaths, tagCloseExtract],
                by simp [tagOpenPaths, tagOpenExtract]⟩
            | none =>
              dsimp only
              obtain ⟨ih1, ih2⟩ :=
                ih (Ev.tagClose (trackPathOf albumPath t) :: defers)
              constructor
              · simp only [tagClosePaths, List.filterMap_append]
                simp only [tagClosePaths] at ih1
                simp [tagCloseExtract, ih1]
              · rw [ih2]
                simp only [tagOpenPaths, List.filterMap_append]
                simp [tagOpenExtract, tagOpenPaths]

/-- Within the track loop, every successfully created track file whose
write did not fail is closed; only a failed `ReadFrom` exits with the
just-created handle unclosed. -/
theorem tracksLoop_file_handles (w : World) (albumPath : String) :
    ∀ (ts : List TrackInfo) (defers : List Ev) (p : String),
    Ev.writeTrack p false ∉ (tracksLoop w albumPath ts defers).1 →
    (trackClosePaths (tracksLoop w albumPath ts defers).1).count p =
      (trackCreatePaths (tracksLoop w albumPath ts defers).1).count p := by
  intro ts
  induction ts with
  | nil =>
    intro defers p _
    simp [tracksLoop, trackClosePaths, trackCreatePaths]
  | cons t ts ih =>
    intro defers p hni
    rw [tracksLoop] at hni ⊢
    cases hg : w.httpGet t.fileUrl with
    | error e =>
      simp [trackClosePaths, trackCloseExtract, trackCreatePaths, createExtract]
    | ok body =>
      rw [hg] at hni
      dsimp only at hni ⊢
      cases hc : w.createRes (trackPathOf albumPath t) with
      | some e =>
        simp [trackClosePaths, trackCloseExtract, trackCreatePaths, createExtract]
      | none =>
        rw [hc] at hni
        dsimp only at hni ⊢
        cases hr : (match body with
            | none => some (GoErr.msg "unexpected EOF")
            | some _ => w.writeRes (trackPathOf albumPath t)) with
        | some e =>
          rw [hr] at hni
          dsimp only at hni
          have hpq : p ≠ trackPathOf albumPath t := by
            intro hpq
            apply hni
            subst hpq
            simp
          simp [trackClosePaths, trackCloseExtract, trackCreatePaths, createExtract,
            List.count_cons, hpq]
        | none =>
          rw [hr] at hni
          dsimp only at hni ⊢
          cases ho : w.tagOpenRes (trackPathOf albumPath t) with
          | some e =>
            simp [trackClosePaths, trackCloseExtract, trackCreatePaths, createExtract]
          | none =>
            rw [ho] at hni
            dsimp only at hni ⊢
            cases hs : w.tagSaveRes (trackPathOf albumPath t) with
            | some e =>
              simp [trackClosePaths, trackCloseExtract, trackCreatePaths, createExtract]
            | none =>
              rw [hs] at hni
              dsimp only at hni ⊢
              have hsplit : Ev.writeTrack p false ∉
                  ([Ev.trackGet t.fileUrl true,
                    Ev.createTrack (trackPathOf albumPath t) true,
                    Ev.writeTrack (trackPathOf albumPath t) true,
                    Ev.closeTrack (trackPathOf albumPath t),
                    Ev.tagOpen (trackPathOf albumPath t) true,
                    Ev.tagSave (trackPathOf albumPath t) true] : List Ev) ∧
                  Ev.writeTrack p false ∉
                    (tracksLoop w albumPath ts
                      (Ev.tagClose (trackPathOf albumPath t) :: defers)).1 := by
                rw [List.mem_append] at hni
                push_neg at hni
                exact hni
              have := ih (Ev.tagClose (trackPathOf albumPath t) :: defers) p hsplit.2
              simp only [trackClosePaths, trackCreatePaths, List.filterMap_append,
                List.count_append] at this ⊢
              simp [trackCloseExtract, createExtract, this]

theorem tagClosePaths_map (l : List String) :
    tagClosePaths (l.map Ev.tagClose) = l := by
  induction l <;> simp_all [tagClosePaths, tagCloseExtract]

theorem tagClose_map_others (l : List String) :
    tagOpenPaths (l.map Ev.tagClose) = [] ∧
    coverOpenPaths (l.map Ev.tagClose) = [] ∧
    coverClosePaths (l.map Ev.tagClose) = [] ∧
    trackCreatePaths (l.map Ev.tagClose) = [] ∧
    trackClosePaths (l.map Ev.tagClose) = [] := by
  induction l <;>
    simp_all [tagOpenPaths, tagOpenExtract, coverOpenPaths, coverOpenExtract,
      coverClosePaths, coverCloseExtract, trackCreatePaths, createExtract,
      trackClosePaths, trackCloseExtract]

theorem trackEv_cover_none (ev : Ev) (h : ev.isTrackEv = true) :
    coverOpenExtract ev = none ∧ coverCloseExtract ev = none := by
  cases ev <;> first
    | exact ⟨rfl, rfl⟩
    | exact Bool.noConfusion h

theorem artGet_handle_none (ev : Ev) (h : ev.isArtGet = true) :
    coverOpenExtract ev = none ∧ coverCloseExtract ev = none ∧
    createExtract ev = none ∧ trackCloseExtract ev = none ∧
    tagOpenExtract ev = none ∧ tagCloseExtract ev = none ∧
    fetchExtract ev = none := by
  cases ev <;> first
    | exact ⟨rfl, rfl, rfl, rfl, rfl, rfl, rfl⟩
    | exact Bool.noConfusion h

theorem artPhase_only_art (w : World) (alb : TRAlbum) :
    ∀ ev ∈ (artPhase w alb).1, ev.isArtGet = true := by
  intro ev hev
  unfold artPhase at hev
  by_cases h : alb.currentArtId ≠ 0
  · rw [if_pos h] at hev
    dsimp only at hev
    cases hg : w.httpGet (smallArtUrl alb.currentArtId) with
    | error e =>
      rw [hg] at hev
      simp only [List.mem_singleton] at hev
      subst hev; rfl
    | ok body =>
      rw [hg] at hev
      cases body with
      | none =>
        simp only [List.mem_singleton] at hev
        subst hev; rfl
      | some sb =>
        dsimp only at hev
        cases hg2 : w.httpGet (largeArtUrl alb.currentArtId) with
        | error e =>
          rw [hg2] at hev
          simp only [List.mem_cons, List.not_mem_nil, or_false] at hev
          rcases hev with rfl | rfl
          all_goals rfl
        | ok body2 =>
          rw [hg2] at hev
          cases body2 with
          | none =>
            simp only [List.mem_cons, List.not_mem_nil, or_false] at hev
            rcases hev with rfl | rfl
            all_goals rfl
          | some lb =>
            simp only [List.mem_cons, List.not_mem_nil, or_false] at hev
            rcases hev with rfl | rfl
            all_goals rfl
  · rw [if_neg h] at hev
    exact absurd hev (List.not_mem_nil ev)

/-- The handle-release discipline that actually holds of a run's trace:
deferred tag closes release every opened tag container (in reverse open
order), and cover/track file handles are balanced for every path whose
write did not fail. -/
def handlesSpec (evs : List Ev) : Prop :=
  tagClosePaths evs = (tagOpenPaths evs).reverse ∧
  (∀ p, Ev.writeCover p false ∉ evs →
    (coverClosePaths evs).count p = (coverOpenPaths evs).count p) ∧
  (∀ p, Ev.writeTrack p false ∉ evs →
    (trackClosePaths evs).count p = (trackCreatePaths evs).count p)

theorem handlesSpec_assemble (pre L1 L2 : List Ev)
    (h1 : tagOpenPaths pre = []) (h2 : tagClosePaths pre = [])
    (h3 : trackCreatePaths pre = []) (h4 : trackClosePaths pre = [])
    (h5 : ∀ p, Ev.writeCover p false ∉ pre →
      (coverClosePaths pre).count p = (coverOpenPaths pre).count p)
    (hco1 : coverOpenPaths L1 = []) (hcc1 : coverClosePaths L1 = [])
    (hTagC : tagClosePaths L1 = [])
    (hDef : L2 = (tagOpenPaths L1).reverse.map Ev.tagClose)
    (hTrk : ∀ p, Ev.writeTrack p false ∉ L1 →
      (trackClosePaths L1).count p = (trackCreatePaths L1).count p) :
    handlesSpec (pre ++ (L1 ++ L2)) := by
  subst hDef
  have hmapNone : ∀ (f : Ev → Option String), (∀ q : String, f (Ev.tagClose q) = none) →
      ∀ l : List String, List.filterMap f (l.map Ev.tagClose) = [] := by
    intro f hf l
    rw [List.filterMap_map]
    exact List.filterMap_eq_nil_iff.mpr (fun a _ => hf a)
  refine ⟨?_, ?_, ?_⟩
  · simp only [tagClosePaths, List.filterMap_append] at h2 hTagC ⊢
    rw [h2, hTagC]
    have hmc : List.filterMap tagCloseExtract
        ((tagOpenPaths L1).reverse.map Ev.tagClose) = (tagOpenPaths L1).reverse := by
      simpa [tagClosePaths] using tagClosePaths_map ((tagOpenPaths L1).reverse)
    rw [hmc]
    simp only [tagOpenPaths, List.filterMap_append] at h1 ⊢
    rw [h1]
    rw [hmapNone tagOpenExtract (fun q => rfl) _]
    simp [tagOpenPaths]
  · intro p hp
    have hppre : Ev.writeCover p false ∉ pre := by
      intro hh
      exact hp (List.mem_append.mpr (Or.inl hh))
    have h5' := h5 p hppre
    simp only [coverClosePaths, coverOpenPaths, List.filterMap_append,
      List.count_append] at h5' ⊢
    have e1 : List.filterMap coverCloseExtract L1 = [] := by
      simpa [coverClosePaths] using hcc1
    have e2 : List.filterMap coverOpenExtract L1 = [] := by
      simpa [coverOpenPaths] using hco1
    rw [e1, e2, hmapNone coverCloseExtract (fun q => rfl) _,
      hmapNone coverOpenExtract (fun q => rfl) _]
    simpa using h5'
  · intro p hp
    have hpL1 : Ev.writeTrack p false ∉ L1 := by
      intro hh
      exact hp (List.mem_append.mpr (Or.inr (List.mem_append.mpr (Or.inl hh))))
    have ht := hTrk p hpL1
    simp only [trackClosePaths, trackCreatePaths, List.filterMap_append,
      List.count_append] at ht h3 h4 ⊢
    rw [h3, h4, hmapNone trackCloseExtract (fun q => rfl) _,
      hmapNone createExtract (fun q => rfl) _]
    simpa using ht

theorem albumFilesPhase_handles (w : World) (alb : TRAlbum)
    (a b : Option String) :
    handlesSpec (albumFilesPhase w alb a b).1 := by
  have hTE := tracksLoop_evs w (albumPathOf alb) alb.trackinfo []
    (fun d hd => absurd hd (List.not_mem_nil d))
  have hTags := tracksLoop_tags w (albumPathOf alb) alb.trackinfo []
  have hTrk := tracksLoop_file_handles w (albumPathOf alb) alb.trackinfo []
  have hco1 : coverOpenPaths (tracksLoop w (albumPathOf alb) alb.trackinfo []).1 = [] :=
    List.filterMap_eq_nil_iff.mpr (fun ev hev => (trackEv_cover_none ev (hTE.1 ev hev)).1)
  have hcc1 : coverClosePaths (tracksLoop w (albumPathOf alb) alb.trackinfo []).1 = [] :=
    List.filterMap_eq_nil_iff.mpr (fun ev hev => (trackEv_cover_none ev (hTE.1 ev hev)).2)
  have hDef : (tracksLoop w (albumPathOf alb) alb.trackinfo []).2.1 =
      (tagOpenPaths (tracksLoop w (albumPathOf alb) alb.trackinfo []).1).reverse.map
        Ev.tagClose := by
    have h := hTags.2
    simpa using h
  have hasm := handlesSpec_assemble
  unfold albumFilesPhase
  dsimp only
  by_cases hst : w.statNotExist (albumPathOf alb) = true
  case pos =>
    simp only [hst, if_true]
    cases hm : w.mkdirRes (albumPathOf alb) with
    | some e =>
      dsimp only
      refine ⟨by simp [tagClosePaths, tagCloseExtract, tagOpenPaths, tagOpenExtract],
        fun p _ => by simp [coverClosePaths, coverCloseExtract, coverOpenPaths, coverOpenExtract],
        fun p _ => by simp [trackClosePaths, trackCloseExtract, trackCreatePaths, createExtract]⟩
    | none =>
      dsimp only
      cases b with
      | none =>
        dsimp only
        cases htk : (tracksLoop w (albumPathOf alb) alb.trackinfo []).2.2 with
        | some e =>
          dsimp only
          have h := hasm ([Ev.statDir (albumPathOf alb)] ++ [Ev.mkdirAll (albumPathOf alb) true] ++ [])
            (tracksLoop w (albumPathOf alb) alb.trackinfo []).1
            (tracksLoop w (albumPathOf alb) alb.trackinfo []).2.1
            (by simp [tagOpenPaths, tagOpenExtract])
            (by simp [tagClosePaths, tagCloseExtract])
            (by simp [trackCreatePaths, createExtract])
            (by simp [trackClosePaths, trackCloseExtract])
            (fun p _ => by simp [coverClosePaths, coverCloseExtract, coverOpenPaths, coverOpenExtract])
            hco1 hcc1 hTags.1 hDef hTrk
          have hsh : ([Ev.statDir (albumPathOf alb)] ++ [Ev.mkdirAll (albumPathOf alb) true] ++ [] ++
              ((tracksLoop w (albumPathOf alb) alb.trackinfo []).1 ++
                (tracksLoop w (albumPathOf alb) alb.trackinfo []).2.1)) =
              ([Ev.statDir (albumPathOf alb)] ++ ([Ev.mkdirAll (albumPathOf alb) true] ++ ([] ++
                ((tracksLoop w (albumPathOf alb) alb.trackinfo []).1 ++
                  (tracksLoop w (albumPathOf alb) alb.trackinfo []).2.1)))) := by
            simp [List.append_assoc]
          rw [hsh] at h
          exact h
        | none =>
          dsimp only
          have h := hasm ([Ev.statDir (albumPathOf alb)] ++ [Ev.mkdirAll (albumPathOf alb) true] ++ [])
            (tracksLoop w (albumPathOf alb) alb.trackinfo []).1
            (tracksLoop w (albumPathOf alb) alb.trackinfo []).2.1
            (by simp [tagOpenPaths, tagOpenExtract])
            (by simp [tagClosePaths, tagCloseExtract])
            (by simp [trackCreatePaths, createExtract])
            (by simp [trackClosePaths, trackCloseExtract])
            (fun p _ => by simp [coverClosePaths, coverCloseExtract, coverOpenPaths, coverOpenExtract])
            hco1 hcc1 hTags.1 hDef hTrk
          have hsh : ([Ev.statDir (albumPathOf alb)] ++ [Ev.mkdirAll (albumPathOf alb) true] ++ [] ++
              ((tracksLoop w (albumPathOf alb) alb.trackinfo []).1 ++
                (tracksLoop w (albumPathOf alb) alb.trackinfo []).2.1)) =
              ([Ev.statDir (albumPathOf alb)] ++ ([Ev.mkdirAll (albumPathOf alb) true] ++ ([] ++
                ((tracksLoop w (albumPathOf alb) alb.trackinfo []).1 ++
                  (tracksLoop w (albumPathOf alb) alb.trackinfo []).2.1)))) := by
            simp [List.append_assoc]
          rw [hsh] at h
          exact h
      | some bb =>
        dsimp only
        cases hcc : w.createRes (albumPathOf alb ++ "/cover.jpg") with
        | some e =>
          dsimp only
          refine ⟨by simp [tagClosePaths, tagCloseExtract, tagOpenPaths, tagOpenExtract],
            fun p _ => by simp [coverClosePaths, coverCloseExtract, coverOpenPaths, coverOpenExtract],
            fun p _ => by simp [trackClosePaths, trackCloseExtract, trackCreatePaths, createExtract]⟩
        | none =>
          dsimp only
          cases hcw : w.writeRes (albumPathOf alb ++ "/cover.jpg") with
          | some e =>
            dsimp only
            refine ⟨by simp [tagClosePaths, tagCloseExtract, tagOpenPaths, tagOpenExtract],
              fun p hp => ?_,
              fun p _ => by simp [trackClosePaths, trackCloseExtract, trackCreatePaths, createExtract]⟩
            have hpq : p ≠ albumPathOf alb ++ "/cover.jpg" := by
              intro hpq
              apply hp
              subst hpq
              simp
            simp [coverClosePaths, coverCloseExtract, coverOpenPaths, coverOpenExtract,
              List.count_cons, hpq]
          | none =>
            dsimp only
            cases htk : (tracksLoop w (albumPathOf alb) alb.trackinfo []).2.2 with
            | some e =>
              dsimp only
              have h := hasm ([Ev.statDir (albumPathOf alb)] ++ [Ev.mkdirAll (albumPathOf alb) true] ++
                  [Ev.createCover (albumPathOf alb ++ "/cover.jpg") true,
                   Ev.writeCover (albumPathOf alb ++ "/cover.jpg") true,
                   Ev.closeCover (albumPathOf alb ++ "/cover.jpg")])
                (tracksLoop w (albumPathOf alb) alb.trackinfo []).1
                (tracksLoop w (albumPathOf alb) alb.trackinfo []).2.1
                (by simp [tagOpenPaths, tagOpenExtract])
                (by simp [tagClosePaths, tagCloseExtract])
                (by simp [trackCreatePaths, createExtract])
                (by simp [trackClosePaths, trackCloseExtract])
                (fun p _ => by
                  simp [coverClosePaths, coverCloseExtract, coverOpenPaths, coverOpenExtract])
                hco1 hcc1 hTags.1 hDef hTrk
              have hsh : ([Ev.statDir (albumPathOf alb)] ++ [Ev.mkdirAll (albumPathOf alb) true] ++
                  [Ev.createCover (albumPathOf alb ++ "/cover.jpg") true,
                   Ev.writeCover (albumPathOf alb ++ "/cover.jpg") true,
                   Ev.closeCover (albumPathOf alb ++ "/cover.jpg")] ++
                  ((tracksLoop w (albumPathOf alb) alb.trackinfo []).1 ++
                    (tracksLoop w (albumPathOf alb) alb.trackinfo []).2.1)) =
                  ([Ev.statDir (albumPathOf alb)] ++ ([Ev.mkdirAll (albumPathOf alb) true] ++
                    ([Ev.createCover (albumPathOf alb ++ "/cover.jpg") true,
                      Ev.writeCover (albumPathOf alb ++ "/cover.jpg") true,
                      Ev.closeCover (albumPathOf alb ++ "/cover.jpg")] ++
                    ((tracksLoop w (albumPathOf alb) alb.trackinfo []).1 ++
                      (tracksLoop w (albumPathOf alb) alb.trackinfo []).2.1)))) := by
                simp [List.append_assoc]
              rw [hsh] at h
              exact h
            | none =>
              dsimp only
              have h := hasm ([Ev.statDir (albumPathOf alb)] ++ [Ev.mkdirAll (albumPathOf alb) true] ++
                  [Ev.createCover (albumPathOf alb ++ "/cover.jpg") true,
                   Ev.writeCover (albumPathOf alb ++ "/cover.jpg") true,
                   Ev.closeCover (albumPathOf alb ++ "/cover.jpg")])
                (tracksLoop w (albumPathOf alb) alb.trackinfo []).1
                (tracksLoop w (albumPathOf alb) alb.trackinfo []).2.1
                (by simp [tagOpenPaths, tagOpenExtract])
                (by simp [tagClosePaths, tagCloseExtract])
                (by simp [trackCreatePaths, createExtract])
                (by simp [trackClosePaths, trackCloseExtract])
                (fun p _ => by
                  simp [coverClosePaths, coverCloseExtract, coverOpenPaths, coverOpenExtract])
                hco1 hcc1 hTags.1 hDef hTrk
              have hsh : ([Ev.statDir (albumPathOf alb)] ++ [Ev.mkdirAll (albumPathOf alb) true] ++
                  [Ev.createCover (albumPathOf alb ++ "/cover.jpg") true,
                   Ev.writeCover (albumPathOf alb ++ "/cover.jpg") true,
                   Ev.closeCover (albumPathOf alb ++ "/cover.jpg")] ++
                  ((tracksLoop w (albumPathOf alb) alb.trackinfo []).1 ++
                    (tracksLoop w (albumPathOf alb) alb.trackinfo []).2.1)) =
                  ([Ev.statDir (albumPathOf alb)] ++ ([Ev.mkdirAll (albumPathOf alb) true] ++
                    ([Ev.createCover (albumPathOf alb ++ "/cover.jpg") true,
                      Ev.writeCover (albumPathOf alb ++ "/cover.jpg") true,
                      Ev.closeCover (albumPathOf alb ++ "/cover.jpg")] ++
                    ((tracksLoop w (albumPathOf alb) alb.trackinfo []).1 ++
                      (tracksLoop w (albumPathOf alb) alb.trackinfo []).2.1)))) := by
                simp [List.append_assoc]
              rw [hsh] at h
              exact h
  case neg =>
    simp only [Bool.not_eq_true] at hst
    simp only [hst, Bool.false_eq_true, if_false]
    cases b with
    | none =>
      dsimp only
      cases htk : (tracksLoop w (albumPathOf alb) alb.trackinfo []).2.2 with
      | some e =>
        dsimp only
        have h := hasm ([Ev.statDir (albumPathOf alb)] ++ [] ++ [])
          (tracksLoop w (albumPathOf alb) alb.trackinfo []).1
          (tracksLoop w (albumPathOf alb) alb.trackinfo []).2.1
          (by simp [tagOpenPaths, tagOpenExtract])
          (by simp [tagClosePaths, tagCloseExtract])
          (by simp [trackCreatePaths, createExtract])
          (by simp [trackClosePaths, trackCloseExtract])
          (fun p _ => by simp [coverClosePaths, coverCloseExtract, coverOpenPaths, coverOpenExtract])
          hco1 hcc1 hTags.1 hDef hTrk
        have hsh : ([Ev.statDir (albumPathOf alb)] ++ [] ++ [] ++
            ((tracksLoop w (albumPathOf alb) alb.trackinfo []).1 ++
              (tracksLoop w (albumPathOf alb) alb.trackinfo []).2.1)) =
            ([Ev.statDir (albumPathOf alb)] ++ ([] ++ ([] ++
              ((tracksLoop w (albumPathOf alb) alb.trackinfo []).1 ++
                (tracksLoop w (albumPathOf alb) alb.trackinfo []).2.1)))) := by
          simp [List.append_assoc]
        rw [hsh] at h
        exact h
      | none =>
        dsimp only
        have h := hasm ([Ev.statDir (albumPathOf alb)] ++ [] ++ [])
          (tracksLoop w (albumPathOf alb) alb.trackinfo []).1
          (tracksLoop w (albumPathOf alb) alb.trackinfo []).2.1
          (by simp [tagOpenPaths, tagOpenExtract])
          (by simp [tagClosePaths, tagCloseExtract])
          (by simp [trackCreatePaths, createExtract])
          (by simp [trackClosePaths, trackCloseExtract])
          (fun p _ => by simp [coverClosePaths, coverCloseExtract, coverOpenPaths, coverOpenExtract])
          hco1 hcc1 hTags.1 hDef hTrk
        have hsh : ([Ev.statDir (albumPathOf alb)] ++ [] ++ [] ++
            ((tracksLoop w (albumPathOf alb) alb.trackinfo []).1 ++
              (tracksLoop w (albumPathOf alb) alb.trackinfo []).2.1)) =
            ([Ev.statDir (albumPathOf alb)] ++ ([] ++ ([] ++
              ((tracksLoop w (albumPathOf alb) alb.trackinfo []).1 ++
                (tracksLoop w (albumPathOf alb) alb.trackinfo []).2.1)))) := by
          simp [List.append_assoc]
        rw [hsh] at h
        exact h
    | some bb =>
      dsimp only
      cases hcc : w.createRes (albumPathOf alb ++ "/cover.jpg") with
      | some e =>
        dsimp only
        refine ⟨by simp [tagClosePaths, tagCloseExtract, tagOpenPaths, tagOpenExtract],
          fun p _ => by simp [coverClosePaths, coverCloseExtract, coverOpenPaths, coverOpenExtract],
          fun p _ => by simp [trackClosePaths, trackCloseExtract, trackCreatePaths, createExtract]⟩
      | none =>
        dsimp only
        cases hcw : w.writeRes (albumPathOf alb ++ "/cover.jpg") with
        | some e =>
          dsimp only
          refine ⟨by simp [tagClosePaths, tagCloseExtract, tagOpenPaths, tagOpenExtract],
            fun p hp => ?_,
            fun p _ => by simp [trackClosePaths, trackCloseExtract, trackCreatePaths, createExtract]⟩
          have hpq : p ≠ albumPathOf alb ++ "/cover.jpg" := by
            intro hpq
            apply hp
            subst hpq
            simp
          simp [coverClosePaths, coverCloseExtract, coverOpenPaths, coverOpenExtract,
            List.count_cons, hpq]
        | none =>
          dsimp only
          cases htk : (tracksLoop w (albumPathOf alb) alb.trackinfo []).2.2 with
          | some e =>
            dsimp only
            have h := hasm ([Ev.statDir (albumPathOf alb)] ++ [] ++
                [Ev.createCover (albumPathOf alb ++ "/cover.jpg") true,
                 Ev.writeCover (albumPathOf alb ++ "/cover.jpg") true,
                 Ev.closeCover (albumPathOf alb ++ "/cover.jpg")])
              (tracksLoop w (albumPathOf alb) alb.trackinfo []).1
              (tracksLoop w (albumPathOf alb) alb.trackinfo []).2.1
              (by simp [tagOpenPaths, tagOpenExtract])
              (by simp [tagClosePaths, tagCloseExtract])
              (by simp [trackCreatePaths, createExtract])
              (by simp [trackClosePaths, trackCloseExtract])
              (fun p _ => by
                simp [coverClosePaths, coverCloseExtract, coverOpenPaths, coverOpenExtract])
              hco1 hcc1 hTags.1 hDef hTrk
            have hsh : ([Ev.statDir (albumPathOf alb)] ++ [] ++
                [Ev.createCover (albumPathOf alb ++ "/cover.jpg") true,
                 Ev.writeCover (albumPathOf alb ++ "/cover.jpg") true,
                 Ev.closeCover (albumPathOf alb ++ "/cover.jpg")] ++
                ((tracksLoop w (albumPathOf alb) alb.trackinfo []).1 ++
                  (tracksLoop w (albumPathOf alb) alb.trackinfo []).2.1)) =
                ([Ev.statDir (albumPathOf alb)] ++ ([] ++
                  ([Ev.createCover (albumPathOf alb ++ "/cover.jpg") true,
                    Ev.writeCover (albumPathOf alb ++ "/cover.jpg") true,
                    Ev.closeCover (albumPathOf alb ++ "/cover.jpg")] ++
                  ((tracksLoop w (albumPathOf alb) alb.trackinfo []).1 ++
                    (tracksLoop w (albumPathOf alb) alb.trackinfo []).2.1)))) := by
              simp [List.append_assoc]
            rw [hsh] at h
            exact h
          | none =>
            dsimp only
            have h := hasm ([Ev.statDir (albumPathOf alb)] ++ [] ++
                [Ev.createCover (albumPathOf alb ++ "/cover.jpg") true,
                 Ev.writeCover (albumPathOf alb ++ "/cover.jpg") true,
                 Ev.closeCover (albumPathOf alb ++ "/cover.jpg")])
              (tracksLoop w (albumPathOf alb) alb.trackinfo []).1
              (tracksLoop w (albumPathOf alb) alb.trackinfo []).2.1
              (by simp [tagOpenPaths, tagOpenExtract])
              (by simp [tagClosePaths, tagCloseExtract])
              (by simp [trackCreatePaths, createExtract])
              (by simp [trackClosePaths, trackCloseExtract])
              (fun p _ => by
                simp [coverClosePaths, coverCloseExtract, coverOpenPaths, coverOpenExtract])
              hco1 hcc1 hTags.1 hDef hTrk
            have hsh : ([Ev.statDir (albumPathOf alb)] ++ [] ++
                [Ev.createCover (albumPathOf alb ++ "/cover.jpg") true,
                 Ev.writeCover (albumPathOf alb ++ "/cover.jpg") true,
                 Ev.closeCover (albumPathOf alb ++ "/cover.jpg")] ++
                ((tracksLoop w (albumPathOf alb) alb.trackinfo []).1 ++
                  (tracksLoop w (albumPathOf alb) alb.trackinfo []).2.1)) =
                ([Ev.statDir (albumPathOf alb)] ++ ([] ++
                  ([Ev.createCover (albumPathOf alb ++ "/cover.jpg") true,
                    Ev.writeCover (albumPathOf alb ++ "/cover.jpg") true,
                    Ev.closeCover (albumPathOf alb ++ "/cover.jpg")] ++
                  ((tracksLoop w (albumPathOf alb) alb.trackinfo []).1 ++
                    (tracksLoop w (albumPathOf alb) alb.trackinfo []).2.1)))) := by
              simp [List.append_assoc]
            rw [hsh] at h
            exact h

theorem handlesSpec_art_prepend (evsA evs : List Ev)
    (hart : ∀ ev ∈ evsA, ev.isArtGet = true)
    (h : handlesSpec evs) : handlesSpec (evsA ++ evs) := by
  have n1 : tagClosePaths evsA = [] :=
    List.filterMap_eq_nil_iff.mpr
      (fun ev hev => (artGet_handle_none ev (hart ev hev)).2.2.2.2.2.1)
  have n2 : tagOpenPaths evsA = [] :=
    List.filterMap_eq_nil_iff.mpr
      (fun ev hev => (artGet_handle_none ev (hart ev hev)).2.2.2.2.1)
  have n3 : coverClosePaths evsA = [] :=
    List.filterMap_eq_nil_iff.mpr
      (fun ev hev => (artGet_handle_none ev (hart ev hev)).2.1)
  have n4 : coverOpenPaths evsA = [] :=
    List.filterMap_eq_nil_iff.mpr
      (fun ev hev => (artGet_handle_none ev (hart ev hev)).1)
  have n5 : trackClosePaths evsA = [] :=
    List.filterMap_eq_nil_iff.mpr
      (fun ev hev => (artGet_handle_none ev (hart ev hev)).2.2.2.1)
  have n6 : trackCreatePaths evsA = [] :=
    List.filterMap_eq_nil_iff.mpr
      (fun ev hev => (artGet_handle_none ev (hart ev hev)).2.2.1)
  obtain ⟨hc1, hc2, hc3⟩ := h
  refine ⟨?_, ?_, ?_⟩
  · simp only [tagClosePaths, tagOpenPaths, List.filterMap_append] at n1 n2 hc1 ⊢
    rw [n1, n2]
    simpa using hc1
  · intro p hp
    have hpe : Ev.writeCover p false ∉ evs := by
      intro hh
      exact hp (List.mem_append.mpr (Or.inr hh))
    have h2 := hc2 p hpe
    simp only [coverClosePaths, coverOpenPaths, List.filterMap_append,
      List.count_append] at n3 n4 h2 ⊢
    rw [n3, n4]
    simpa using h2
  · intro p hp
    have hpe : Ev.writeTrack p false ∉ evs := by
      intro hh
      exact hp (List.mem_append.mpr (Or.inr hh))
    have h3 := hc3 p hpe
    simp only [trackClosePaths, trackCreatePaths, List.filterMap_append,
      List.count_append] at n5 n6 h3 ⊢
    rw [n5, n6]
    simpa using h3

/-- C9 (amended).  On every run of the decoded-record pipeline, every
opened tag container is released by its deferred close (the closes are
the opens in reverse order), and cover/track file handles are balanced
for every path whose write did not fail; when a write to the cover or a
track file fails, the function exits with that handle unclosed. -/
theorem c9_handle_release (w : World) (alb : TRAlbum) :
    handlesSpec (downloadAlbumDecoded w alb).1 := by
  unfold downloadAlbumDecoded
  rcases hap : artPhase w alb with ⟨evsA, resA⟩
  have hart : ∀ ev ∈ evsA, ev.isArtGet = true := by
    have h := artPhase_only_art w alb
    rw [hap] at h
    exact h
  have hartSpec : handlesSpec evsA := by
    have hnil : handlesSpec ([] : List Ev) := by
      refine ⟨rfl, fun p _ => rfl, fun p _ => rfl⟩
    have := handlesSpec_art_prepend evsA [] hart hnil
    simpa using this
  cases resA with
  | error e => exact hartSpec
  | panicked => exact hartSpec
  | ok ab =>
    rcases ab with ⟨aB, bB⟩
    dsimp only
    rcases hfp : albumFilesPhase w alb aB bB with ⟨evsF, outF⟩
    have hf : handlesSpec evsF := by
      have h := albumFilesPhase_handles w alb aB bB
      rw [hfp] at h
      exact h
    exact handlesSpec_art_prepend evsA evsF hart hf

/-- A record with cover art, against an oracle whose cover write fails. -/
def albArt : TRAlbum :=
  ⟨"A", "T", 1, "album", "", ⟨2020, 1, 1, 0, 0, 0⟩, []⟩

/-- An oracle where every fetch succeeds but every file write fails. -/
def wBadWrite : World where
  httpGet := fun _ => .ok (some "IMG")
  parseHtml := fun _ => .ok (.mk .elementNode "html" [] [])
  statNotExist := fun _ => false
  mkdirRes := fun _ => none
  createRes := fun _ => none
  writeRes := fun _ => some (.msg "disk full")
  tagOpenRes := fun _ => none
  tagSaveRes := fun _ => none
  parseUrl := fun _ => .ok ⟨"http://x", "/album/a"⟩
  safeNames := true

/-- Counterexample to C9 as stated: when the cover-art write fails, the
function returns an error with the just-created `cover.jpg` handle never
closed — the trace opens the cover file but contains no close for it. -/
theorem c9_counterexample :
    allHandlesClosedB (downloadAlbumDecoded wBadWrite albArt).1 = false ∧
    (downloadAlbumDecoded wBadWrite albArt).1 =
      [.artGet "https://f4.bcbits.com/img/a1_16.jpg" true,
       .artGet "https://f4.bcbits.com/img/a1_0.jpg" true,
       .statDir "A/T (2020)",
       .createCover "A/T (2020)/cover.jpg" true,
       .writeCover "A/T (2020)/cover.jpg" false] ∧
    (downloadAlbumDecoded wBadWrite albArt).2 =
      .fail (.wrap "could not write large album art file" (.msg "disk full")) := by
  refine ⟨by decide, by decide, by decide⟩

/-- Witness for the amended C9: the all-success two-track run — tag
closes are the tag opens reversed, and the cover and track file handles
balance at their concrete paths. -/
theorem c9_witness :
    tagClosePaths (downloadAlbumDecoded wOk albTwoOne).1 =
      (tagOpenPaths (downloadAlbumDecoded wOk albTwoOne).1).reverse ∧
    (coverClosePaths (downloadAlbumDecoded wOk albTwoOne).1).count "A/T (2020)/cover.jpg" =
      (coverOpenPaths (downloadAlbumDecoded wOk albTwoOne).1).count "A/T (2020)/cover.jpg" ∧
    (trackClosePaths (downloadAlbumDecoded wOk albTwoOne).1).count "A/T (2020)/02 Two.mp3" =
      (trackCreatePaths (downloadAlbumDecoded wOk albTwoOne).1).count "A/T (2020)/02 Two.mp3" :=
  ⟨(c9_handle_release wOk albTwoOne).1,
    (c9_handle_release wOk albTwoOne).2.1 _ (by decide),
    (c9_handle_release wOk albTwoOne).2.2 _ (by decide)⟩

end Bandit
